import Mathlib

/-!
Verification of the OCR_Automator field-extraction and normalization
pipeline.  The Python sources (`geocoding_utils.py`,
`process_itau_auto_v2.py`, `process_itau_unified_v1.py`, `ocr_to_csv.py`)
are shallowly embedded as executable Lean definitions; machine strings
become Lean `String`s, dictionaries become association lists, counters
become functions `String → Nat`, and fallible external calls (PDF
rasterization, the OCR engine) become explicit inputs of the modelled
functions.  Theorems below settle the behavioural claims about the
pipeline: check-digit validation, text normalization, candidate scoring
and choice, document classification, OCR result combination, debug-trace
reconciliation and batch assembly.
-/

namespace OCRAuto

/-! ## Python string primitives

Helpers shared by all embedded modules.  They model the exact CPython
semantics used by the sources: `str.strip`, `str.upper`, `re.sub` with
character classes, whitespace (`\s`) and word (`\w`) classes over the
Latin repertoire that appears in these documents. -/

/-- Characters matched by Python's `\s` / stripped by `str.strip()`
(ASCII whitespace, the C0 separators, NEL, NBSP and the Unicode
space separators). -/
def pyIsSpace (c : Char) : Bool :=
  c.toNat ∈ [0x09, 0x0A, 0x0B, 0x0C, 0x0D, 0x1C, 0x1D, 0x1E, 0x1F, 0x20,
              0x85, 0xA0, 0x1680, 0x2000, 0x2001, 0x2002, 0x2003, 0x2004,
              0x2005, 0x2006, 0x2007, 0x2008, 0x2009, 0x200A, 0x2028,
              0x2029, 0x202F, 0x205F, 0x3000]

/-- Python `str.upper()` for one character, over the ASCII range plus the
accented Latin letters appearing in this code base. -/
def pyUpperChar (c : Char) : Char :=
  if 'a' ≤ c ∧ c ≤ 'z' then Char.ofNat (c.toNat - 32)
  else if c = 'á' then 'Á'
  else if c = 'é' then 'É'
  else if c = 'í' then 'Í'
  else if c = 'ó' then 'Ó'
  else if c = 'ú' then 'Ú'
  else if c = 'ñ' then 'Ñ'
  else if c = 'ü' then 'Ü'
  else c

/-- Python `str.lower()` for one character (same repertoire). -/
def pyLowerChar (c : Char) : Char :=
  if 'A' ≤ c ∧ c ≤ 'Z' then Char.ofNat (c.toNat + 32)
  else if c = 'Á' then 'á'
  else if c = 'É' then 'é'
  else if c = 'Í' then 'í'
  else if c = 'Ó' then 'ó'
  else if c = 'Ú' then 'ú'
  else if c = 'Ñ' then 'ñ'
  else if c = 'Ü' then 'ü'
  else c

/-- Python `str.upper()`. -/
def pyUpper (s : String) : String := ⟨s.data.map pyUpperChar⟩

/-- Python `str.lower()`. -/
def pyLower (s : String) : String := ⟨s.data.map pyLowerChar⟩

/-- Drop trailing characters satisfying `p`. -/
def dropTrailing (p : Char → Bool) (l : List Char) : List Char :=
  (l.reverse.dropWhile p).reverse

/-- Python `str.strip()` (no argument: strips whitespace on both ends). -/
def pyStrip (s : String) : String :=
  ⟨dropTrailing pyIsSpace (s.data.dropWhile pyIsSpace)⟩

/-- Python `str.strip(chars)` restricted to a character predicate. -/
def pyStripChars (p : Char → Bool) (s : String) : String :=
  ⟨dropTrailing p (s.data.dropWhile p)⟩

/-- `needle in haystack` over character lists (Python's substring test). -/
def listContainsSub (hay needle : List Char) : Bool :=
  (List.range (hay.length + 1)).any (fun i => needle.isPrefixOf (hay.drop i))

/-- Python's `needle in haystack` substring test. -/
def pyContains (hay needle : String) : Bool :=
  listContainsSub hay.data needle.data

/-! ## `geocoding_utils.py`: RUT check-digit computation and validation -/

/-- Python `str.isdigit()`: nonempty and all decimal digits. -/
def pyIsDigitStr (s : String) : Bool :=
  s ≠ "" && s.data.all Char.isDigit

/-- `re.sub(r'[^\d]', '', s)`: keep only decimal digits. -/
def reSubNonDigits (s : String) : String :=
  ⟨s.data.filter Char.isDigit⟩

/-- Mapping from the weighted digit sum to the check-digit string:
`remainder = 11 - total % 11`; `11 → "0"`, `10 → "K"`, else the digit
itself (final step of `geocoding_utils.calculate_dv`). -/
def dvFromTotal (total : Nat) : String :=
  let r := 11 - total % 11
  if r = 11 then "0" else if r = 10 then "K" else Nat.repr r

/-- The weight for reversed-digit index `i`: the repeating cycle
`[2, 3, 4, 5, 6, 7]` (so `factors[i % 6] = 2 + i % 6`). -/
def dvFactor (i : Nat) : Nat := 2 + i % 6

/-- Weighted sum of the reversed digit string used by `calculate_dv`. -/
def dvTotal (rut : String) : Nat :=
  (rut.data.reverse.map (fun c => c.toNat - '0'.toNat)).enum.foldl
    (fun acc p => acc + p.2 * dvFactor p.1) 0

/-- `geocoding_utils.calculate_dv`: Chilean modulo-11 check digit.
Returns `""` on non-digit input. -/
def calculate_dv (rut : String) : String :=
  if pyIsDigitStr rut then dvFromTotal (dvTotal rut) else ""

/-- `geocoding_utils.validate_rut_dv`: cleans the RUT to digits, computes
the correct check digit, cleans the supplied one (`upper().strip()`), and
reports `(rut_clean, dv_calculated, is_valid)`. -/
def validate_rut_dv (rut dv : String) : String × String × Bool :=
  if rut = "" then ("", "", false)
  else
    let rutClean := reSubNonDigits rut
    if rutClean = "" then ("", "", false)
    else
      let dvCalculated := calculate_dv rutClean
      let dvClean := if dv = "" then "" else pyStrip (pyUpper dv)
      (rutClean, dvCalculated, dvClean == dvCalculated)

/-- The check digit of a digit string is always a single canonical
character that `upper().strip()` leaves unchanged, and is nonempty. -/
theorem dvFromTotal_fixed (t : Nat) :
    pyStrip (pyUpper (dvFromTotal t)) = dvFromTotal t ∧ dvFromTotal t ≠ "" := by
  have hm : t % 11 < 11 := Nat.mod_lt t (by norm_num)
  have key : ∀ m : Nat, m < 11 →
      (pyStrip (pyUpper (dvFromTotal m)) = dvFromTotal m ∧ dvFromTotal m ≠ "") := by
    decide
  have h11 : dvFromTotal t = dvFromTotal (t % 11) := by
    unfold dvFromTotal
    rw [Nat.mod_mod_of_dvd _ (dvd_refl 11)]
  rw [h11]
  exact key (t % 11) hm

/-- C3: for every digit string `d` of length 7 to 8, validating `d`
against its own computed check digit succeeds:
`validate_rut_dv d (calculate_dv d) = (d, calculate_dv d, true)`. -/
theorem C3_validate_computed_dv (d : String)
    (h7 : 7 ≤ d.length) (h8 : d.length ≤ 8)
    (hd : d.data.all Char.isDigit = true) :
    validate_rut_dv d (calculate_dv d) = (d, calculate_dv d, true) := by
  have hne : d ≠ "" := by
    intro h
    rw [h] at h7
    simp [String.length] at h7
  have hclean : reSubNonDigits d = d := by
    unfold reSubNonDigits
    rw [List.filter_eq_self.mpr (fun c hc => (List.all_eq_true.mp hd) c hc)]
  have hdig : pyIsDigitStr d = true := by
    unfold pyIsDigitStr
    simp [hne, hd]
  have hcalc : calculate_dv d = dvFromTotal (dvTotal d) := by
    unfold calculate_dv
    rw [hdig]
    simp
  obtain ⟨hfix, hnz⟩ := dvFromTotal_fixed (dvTotal d)
  unfold validate_rut_dv
  rw [if_neg hne, hclean, if_neg hne, hcalc, if_neg hnz, hfix]
  simp

/-- C3 witness: the sample reference pair — `validate("4499116", "0")`
succeeds, with `"0"` indeed the computed check digit of `"4499116"`. -/
theorem C3_witness :
    calculate_dv "4499116" = "0" ∧
    validate_rut_dv "4499116" "0" = ("4499116", "0", true) := by
  have hc : calculate_dv "4499116" = "0" := by decide
  have h := C3_validate_computed_dv "4499116" (by decide) (by decide) (by decide)
  rw [hc] at h
  exact ⟨hc, h⟩

/-! ## `process_itau_auto_v2.py`: text normalizer

`fix_text` (without the optional `ftfy` dependency) is
`unicodedata.normalize("NFC", s)` followed by removal of U+FFFD;
`clean_text_value` then removes U+200B and straight/typographic quotes,
collapses whitespace runs (`re.sub(r"\s+", " ", s)`) and strips. -/

/-- Canonical composition table of `unicodedata.normalize("NFC", ·)`
restricted to the Latin letter + combining-mark pairs relevant to this
code base (acute accents, tilde, diaeresis); every other pair of
characters is inert.  This is faithful to real NFC on strings made of
ASCII, the handled invisible/quote characters, and these marks. -/
def composePair (a b : Char) : Option Char :=
  if b = '́' then
    if a = 'a' then some 'á' else if a = 'e' then some 'é'
    else if a = 'i' then some 'í' else if a = 'o' then some 'ó'
    else if a = 'u' then some 'ú'
    else if a = 'A' then some 'Á' else if a = 'E' then some 'É'
    else if a = 'I' then some 'Í' else if a = 'O' then some 'Ó'
    else if a = 'U' then some 'Ú' else none
  else if b = '̃' then
    if a = 'n' then some 'ñ' else if a = 'N' then some 'Ñ' else none
  else if b = '̈' then
    if a = 'u' then some 'ü' else if a = 'U' then some 'Ü' else none
  else none

/-- Worker for `nfcCompose`: `a` is the pending character, which may
absorb the following combining mark. -/
def nfcGo (a : Char) : List Char → List Char
  | [] => [a]
  | b :: rest =>
    match composePair a b with
    | some c => nfcGo c rest
    | none => a :: nfcGo b rest

/-- NFC canonical composition on the restricted table: adjacent
(starter, combining-mark) pairs compose; an intervening starter (such as
a zero-width space) blocks composition, exactly as in UAX #15. -/
def nfcCompose : List Char → List Char
  | [] => []
  | a :: rest => nfcGo a rest

/-- `fix_text` (ftfy-less fallback path): NFC-normalize, then strip the
replacement character U+FFFD. -/
def fix_text (s : String) : String :=
  ⟨(nfcCompose s.data).filter (fun c => c ≠ '�')⟩

/-- Worker for `collapseWs`; the flag records whether the previous
character belonged to a whitespace run (already replaced by `' '`). -/
def collapseGo : Bool → List Char → List Char
  | _, [] => []
  | inSp, c :: rest =>
    if pyIsSpace c then
      if inSp then collapseGo true rest else ' ' :: collapseGo true rest
    else c :: collapseGo false rest

/-- `re.sub(r"\s+", " ", ·)`: replace each maximal whitespace run by a
single space. -/
def collapseWs (l : List Char) : List Char := collapseGo false l

/-- `str.strip()` on a character list. -/
def stripWs (l : List Char) : List Char :=
  dropTrailing pyIsSpace (l.dropWhile pyIsSpace)

/-- `clean_text_value`: repair encoding, remove the zero-width space and
straight/typographic double quotes, collapse whitespace, strip. -/
def clean_text_value (s : String) : String :=
  let s1 := fix_text s
  let s2 := s1.data.filter (fun c => c ≠ '​')
  let s3 := s2.filter (fun c => c ≠ '"' && c ≠ '“' && c ≠ '”')
  ⟨stripWs (collapseWs s3)⟩

/-! Support for the idempotency analysis of `clean_text_value`. -/

/-- The combining marks that can compose under `composePair`. -/
def theMarks : List Char := ['́', '̃', '̈']

/-- Adjacent characters are not both whitespace. -/
def spOk (a b : Char) : Prop := pyIsSpace a = false ∨ pyIsSpace b = false

theorem composePair_eq_none (a b : Char) (h : b ∉ theMarks) :
    composePair a b = none := by
  simp only [theMarks, List.mem_cons, List.mem_singleton, not_or] at h
  simp [composePair, h.1, h.2.1, h.2.2]

theorem nfcGo_inert (a : Char) (l : List Char)
    (h : ∀ c ∈ l, c ∉ theMarks) : nfcGo a l = a :: l := by
  induction l generalizing a with
  | nil => rfl
  | cons b rest ih =>
    rw [nfcGo, composePair_eq_none a b (h b (by simp))]
    rw [ih b (fun c hc => h c (by simp [hc]))]

theorem nfcCompose_inert (l : List Char)
    (h : ∀ c ∈ l, c ∉ theMarks) : nfcCompose l = l := by
  cases l with
  | nil => rfl
  | cons a rest =>
    rw [nfcCompose, nfcGo_inert a rest (fun c hc => h c (by simp [hc]))]

theorem mem_collapseGo {c : Char} :
    ∀ {flag : Bool} {l : List Char}, c ∈ collapseGo flag l →
      c = ' ' ∨ (c ∈ l ∧ pyIsSpace c = false) := by
  intro flag l
  induction l generalizing flag with
  | nil => intro h; simp [collapseGo] at h
  | cons a rest ih =>
    intro h
    rw [collapseGo] at h
    by_cases hsp : pyIsSpace a = true
    · rw [if_pos hsp] at h
      cases flag with
      | true =>
        rcases ih h with h1 | h2
        · exact Or.inl h1
        · exact Or.inr ⟨List.mem_cons_of_mem a h2.1, h2.2⟩
      | false =>
        rw [if_neg (by simp)] at h
        rcases List.mem_cons.mp h with h1 | h1
        · exact Or.inl h1
        · rcases ih h1 with h2 | h2
          · exact Or.inl h2
          · exact Or.inr ⟨List.mem_cons_of_mem a h2.1, h2.2⟩
    · rw [if_neg hsp] at h
      rcases List.mem_cons.mp h with h1 | h1
      · subst h1
        exact Or.inr ⟨List.mem_cons_self c rest, Bool.not_eq_true _ ▸ hsp⟩
      · rcases ih h1 with h2 | h2
        · exact Or.inl h2
        · exact Or.inr ⟨List.mem_cons_of_mem a h2.1, h2.2⟩

theorem collapseGo_true_head (l : List Char) :
    ∀ x, (collapseGo true l).head? = some x → pyIsSpace x = false := by
  induction l with
  | nil => intro x h; simp [collapseGo] at h
  | cons a rest ih =>
    intro x h
    rw [collapseGo] at h
    by_cases hsp : pyIsSpace a = true
    · rw [if_pos hsp, if_pos rfl] at h
      exact ih x h
    · rw [if_neg hsp] at h
      simp only [List.head?_cons, Option.some.injEq] at h
      subst h
      exact Bool.not_eq_true _ ▸ hsp

theorem chain'_collapseGo (l : List Char) :
    ∀ flag, List.Chain' spOk (collapseGo flag l) := by
  induction l with
  | nil => intro flag; simp [collapseGo]
  | cons a rest ih =>
    intro flag
    rw [collapseGo]
    by_cases hsp : pyIsSpace a = true
    · rw [if_pos hsp]
      cases flag with
      | true => exact ih true
      | false =>
        rw [if_neg (by simp)]
        rw [List.chain'_cons']
        refine ⟨?_, ih true⟩
        intro y hy
        exact Or.inr (collapseGo_true_head rest y hy)
    · rw [if_neg hsp]
      rw [List.chain'_cons']
      refine ⟨?_, ih false⟩
      intro y _
      exact Or.inl (Bool.not_eq_true _ ▸ hsp)

theorem chain'_dropWhile {r : Char → Char → Prop} (p : Char → Bool)
    {l : List Char} (h : List.Chain' r l) : List.Chain' r (l.dropWhile p) := by
  induction l with
  | nil => simp
  | cons a rest ih =>
    rw [List.dropWhile_cons]
    by_cases hp : p a = true
    · rw [if_pos hp]
      exact ih h.tail
    · rw [if_neg hp]
      exact h

theorem spOk_symm {a b : Char} (h : spOk a b) : spOk b a := h.symm

theorem chain'_dropTrailing {l : List Char}
    (h : List.Chain' spOk l) : List.Chain' spOk (dropTrailing pyIsSpace l) := by
  unfold dropTrailing
  have h1 : List.Chain' (flip spOk) l := h.imp (fun _ _ hab => spOk_symm hab)
  have h2 : List.Chain' spOk l.reverse := List.chain'_reverse.mpr h1
  have h3 := chain'_dropWhile pyIsSpace h2
  have h4 : List.Chain' (flip spOk) (l.reverse.dropWhile pyIsSpace) :=
    h3.imp (fun _ _ hab => spOk_symm hab)
  exact List.chain'_reverse.mpr h4

theorem head?_dropWhile (p : Char → Bool) (l : List Char) :
    ∀ x, (l.dropWhile p).head? = some x → p x = false := by
  induction l with
  | nil => intro x h; simp at h
  | cons a rest ih =>
    intro x h
    rw [List.dropWhile_cons] at h
    by_cases hp : p a = true
    · rw [if_pos hp] at h
      exact ih x h
    · rw [if_neg hp] at h
      simp only [List.head?_cons, Option.some.injEq] at h
      subst h
      exact Bool.not_eq_true _ ▸ hp

/-- `dropTrailing` keeps an initial segment of the list. -/
theorem dropTrailing_append (p : Char → Bool) (m : List Char) :
    m = dropTrailing p m ++ (m.reverse.takeWhile p).reverse := by
  unfold dropTrailing
  rw [← List.reverse_append, List.takeWhile_append_dropWhile, List.reverse_reverse]

theorem dropTrailing_sublist (p : Char → Bool) (m : List Char) :
    (dropTrailing p m).Sublist m := by
  unfold dropTrailing
  have h := (List.dropWhile_sublist (l := m.reverse) p).reverse
  rwa [List.reverse_reverse] at h

theorem head?_dropTrailing (p : Char → Bool) (m : List Char)
    (hm : ∀ x, m.head? = some x → p x = false) :
    ∀ x, (dropTrailing p m).head? = some x → p x = false := by
  intro x h
  rcases hd : dropTrailing p m with _ | ⟨a, u⟩
  · rw [hd] at h; simp at h
  · rw [hd] at h
    simp only [List.head?_cons, Option.some.injEq] at h
    subst h
    have := dropTrailing_append p m
    rw [hd] at this
    apply hm
    rw [this]
    simp

theorem getLast?_dropTrailing (p : Char → Bool) (m : List Char) :
    ∀ x, (dropTrailing p m).getLast? = some x → p x = false := by
  intro x h
  unfold dropTrailing at h
  rw [List.getLast?_reverse] at h
  exact head?_dropWhile p m.reverse x h

theorem dropWhile_eq_self_of_head (p : Char → Bool) (l : List Char)
    (h : ∀ x, l.head? = some x → p x = false) : l.dropWhile p = l := by
  cases l with
  | nil => rfl
  | cons a rest =>
    rw [List.dropWhile_cons, if_neg (by rw [h a rfl]; simp)]

theorem dropTrailing_eq_self (p : Char → Bool) (l : List Char)
    (h : ∀ x, l.getLast? = some x → p x = false) : dropTrailing p l = l := by
  unfold dropTrailing
  rw [dropWhile_eq_self_of_head p l.reverse, List.reverse_reverse]
  intro x hx
  rw [List.head?_reverse] at hx
  exact h x hx

theorem collapseGo_fix (l : List Char)
    (hs : ∀ c ∈ l, pyIsSpace c = true → c = ' ')
    (hc : List.Chain' spOk l) :
    collapseGo false l = l ∧
      ((∀ x, l.head? = some x → pyIsSpace x = false) → collapseGo true l = l) := by
  induction l with
  | nil => exact ⟨rfl, fun _ => rfl⟩
  | cons a rest ih =>
    obtain ⟨ihf, iht⟩ := ih (fun c hcm => hs c (List.mem_cons_of_mem a hcm)) hc.tail
    by_cases hsp : pyIsSpace a = true
    · have ha : a = ' ' := hs a (List.mem_cons_self a rest) hsp
      have hresthead : ∀ x, rest.head? = some x → pyIsSpace x = false := by
        intro x hx
        cases rest with
        | nil => simp at hx
        | cons b rest2 =>
          simp only [List.head?_cons, Option.some.injEq] at hx
          subst hx
          rcases (List.chain'_cons'.mp hc).1 b rfl with hl | hr
          · rw [hsp] at hl; cases hl
          · exact hr
      constructor
      · rw [collapseGo, if_pos hsp, if_neg (by simp), ha, iht hresthead]
      · intro hhead
        have := hhead a rfl
        rw [hsp] at this
        cases this
    · constructor
      · rw [collapseGo, if_neg hsp, ihf]
      · intro _
        rw [collapseGo, if_neg hsp, ihf]

/-- The character-removal stage of `clean_text_value`. -/
def cleanFilters (l : List Char) : List Char :=
  (((nfcCompose l).filter (fun c => c ≠ '�')).filter
      (fun c => c ≠ '​')).filter
    (fun c => c ≠ '"' && c ≠ '“' && c ≠ '”')

/-- List core of `clean_text_value` (definitionally equal to it). -/
def cleanChars (l : List Char) : List Char :=
  stripWs (collapseWs (cleanFilters l))

theorem clean_text_value_eq (s : String) :
    clean_text_value s = ⟨cleanChars s.data⟩ := rfl

/-- Characters on which `clean_text_value` is faithful to the full
Python semantics and provably idempotent: ASCII plus the characters the
function specifically removes. -/
def asciiOrHandled (c : Char) : Bool :=
  c.toNat < 128 || (c == '​' || c == '“' || c == '”' || c == '�')

theorem stripWs_sublist (l : List Char) : (stripWs l).Sublist l :=
  (dropTrailing_sublist pyIsSpace (l.dropWhile pyIsSpace)).trans
    (List.dropWhile_sublist pyIsSpace)

theorem mem_theMarks {c : Char} (h : c ∈ theMarks) :
    c = '́' ∨ c = '̃' ∨ c = '̈' := by
  simpa [theMarks] using h

theorem asciiOrHandled_not_mark {c : Char}
    (h : asciiOrHandled c = true) : c ∉ theMarks := by
  intro hm
  rcases mem_theMarks hm with h1 | h1 | h1
  all_goals (subst h1; revert h; decide)

theorem asciiOrHandled_cases {c : Char} (h : asciiOrHandled c = true) :
    c.toNat < 128 ∨ c = '​' ∨ c = '“' ∨ c = '”' ∨ c = '�' := by
  simp only [asciiOrHandled, Bool.or_eq_true, decide_eq_true_eq,
    beq_iff_eq, or_assoc] at h
  exact h

theorem mem_cleanFilters (l : List Char) (hnomark : ∀ c ∈ l, c ∉ theMarks) :
    ∀ c ∈ cleanFilters l, c ∈ l ∧ c ≠ '�' ∧ c ≠ '​' ∧
      c ≠ '"' ∧ c ≠ '“' ∧ c ≠ '”' := by
  intro c hc
  unfold cleanFilters at hc
  have h1 := List.mem_filter.mp hc
  have h2 := List.mem_filter.mp h1.1
  have h3 := List.mem_filter.mp h2.1
  rw [nfcCompose_inert l hnomark] at h3
  have h4 := h1.2
  simp only [Bool.and_eq_true, decide_eq_true_eq] at h4
  refine ⟨h3.1, ?_, ?_, h4.1.1, h4.1.2, h4.2⟩
  · simpa using h3.2
  · simpa using h2.2

theorem cleanChars_idem (l : List Char)
    (hl : ∀ c ∈ l, asciiOrHandled c = true) :
    cleanChars (cleanChars l) = cleanChars l := by
  have hnomark : ∀ c ∈ l, c ∉ theMarks := fun c hc => asciiOrHandled_not_mark (hl c hc)
  have hmem3 := mem_cleanFilters l hnomark
  have hascii3 : ∀ c ∈ cleanFilters l, c.toNat < 128 := by
    intro c hc
    obtain ⟨hcl, hne1, hne2, _, hne4, hne5⟩ := hmem3 c hc
    rcases asciiOrHandled_cases (hl c hcl) with h | h | h | h | h
    · exact h
    · exact absurd h hne2
    · exact absurd h hne4
    · exact absurd h hne5
    · exact absurd h hne1
  -- the normalized output and its invariants
  have hmemt : ∀ c ∈ cleanChars l,
      c = ' ' ∨ (c ∈ cleanFilters l ∧ pyIsSpace c = false) := by
    intro c hc
    exact mem_collapseGo ((stripWs_sublist (collapseWs (cleanFilters l))).mem hc)
  have htascii : ∀ c ∈ cleanChars l, c.toNat < 128 ∧ c ≠ '"' := by
    intro c hc
    rcases hmemt c hc with h | h
    · subst h; exact ⟨by decide, by decide⟩
    · exact ⟨hascii3 c h.1, (hmem3 c h.1).2.2.2.1⟩
  have htnomark : ∀ c ∈ cleanChars l, c ∉ theMarks := by
    intro c hc hm
    have hac := (htascii c hc).1
    rcases mem_theMarks hm with h1 | h1 | h1
    all_goals (subst h1; revert hac; decide)
  have htsp : ∀ c ∈ cleanChars l, pyIsSpace c = true → c = ' ' := by
    intro c hc hsp
    rcases hmemt c hc with h | h
    · exact h
    · rw [h.2] at hsp; cases hsp
  have htchain : List.Chain' spOk (cleanChars l) :=
    chain'_dropTrailing
      (chain'_dropWhile pyIsSpace (chain'_collapseGo (cleanFilters l) false))
  have hthead : ∀ x, (cleanChars l).head? = some x → pyIsSpace x = false :=
    head?_dropTrailing pyIsSpace _ (head?_dropWhile pyIsSpace _)
  have htlast : ∀ x, (cleanChars l).getLast? = some x → pyIsSpace x = false :=
    getLast?_dropTrailing pyIsSpace _
  -- second pass is the identity
  have f1 : (cleanChars l).filter (fun c => c ≠ '�') = cleanChars l := by
    refine List.filter_eq_self.mpr (fun c hc => ?_)
    have hac := (htascii c hc).1
    simp only [decide_eq_true_eq]
    intro hcontra
    subst hcontra
    exact absurd hac (by decide)
  have f2 : (cleanChars l).filter (fun c => c ≠ '​') = cleanChars l := by
    refine List.filter_eq_self.mpr (fun c hc => ?_)
    have hac := (htascii c hc).1
    simp only [decide_eq_true_eq]
    intro hcontra
    subst hcontra
    exact absurd hac (by decide)
  have f3 : (cleanChars l).filter
      (fun c => c ≠ '"' && c ≠ '“' && c ≠ '”') = cleanChars l := by
    refine List.filter_eq_self.mpr (fun c hc => ?_)
    have h1 := (htascii c hc).1
    have h2 := (htascii c hc).2
    simp only [Bool.and_eq_true, decide_eq_true_eq]
    refine ⟨⟨h2, ?_⟩, ?_⟩
    · intro hcontra; subst hcontra; exact absurd h1 (by decide)
    · intro hcontra; subst hcontra; exact absurd h1 (by decide)
  have hf : cleanFilters (cleanChars l) = cleanChars l := by
    unfold cleanFilters
    rw [nfcCompose_inert _ htnomark, f1, f2, f3]
  have hcollapse : collapseWs (cleanChars l) = cleanChars l :=
    (collapseGo_fix (cleanChars l) htsp htchain).1
  have hstrip : stripWs (cleanChars l) = cleanChars l := by
    unfold stripWs
    rw [dropWhile_eq_self_of_head pyIsSpace _ hthead,
      dropTrailing_eq_self pyIsSpace _ htlast]
  show stripWs (collapseWs (cleanFilters (cleanChars l))) = cleanChars l
  rw [hf, hcollapse, hstrip]

/-- C4 counterexample: `clean_text_value` is *not* idempotent on every
string.  On `"e" + zero-width-space + combining-acute` the first pass
removes the zero-width space (whose presence blocked NFC composition),
and only the second pass composes `e` + U+0301 into `é`. -/
theorem C4_counterexample :
    clean_text_value (clean_text_value ⟨['e', '​', '́']⟩) ≠
      clean_text_value ⟨['e', '​', '́']⟩ := by decide

/-- C4 (amended): the normalizer is idempotent on every string whose
characters are ASCII or among the characters it specifically removes
(zero-width space, typographic quotes, replacement character); in
particular it returns an already-normalized clean ASCII string
unchanged.  Full generality fails (see the counterexample). -/
theorem C4_clean_text_value_idem (s : String)
    (h : s.data.all asciiOrHandled = true) :
    clean_text_value (clean_text_value s) = clean_text_value s := by
  have := cleanChars_idem s.data (fun c hc => List.all_eq_true.mp h c hc)
  exact congrArg String.mk this

/-- C4 witness: concrete idempotency through the theorem, plus the
claim's round-trip instance — a clean ASCII string comes back
identical. -/
theorem C4_witness :
    ("A  B\tC \"quoted\"".data.all asciiOrHandled = true) ∧
    clean_text_value (clean_text_value "A  B\tC \"quoted\"") =
      clean_text_value "A  B\tC \"quoted\"" ∧
    clean_text_value "CLEAN ASCII TEXT 123" = "CLEAN ASCII TEXT 123" :=
  ⟨by decide, C4_clean_text_value_idem _ (by decide), by decide⟩

/-! ## Rows and statistics

A CSV/canonical row is a Python dict `field name → string value`,
modelled as an association list in insertion order; statistics counters
(`stats`, `stats_fill`) are modelled as total functions `String → Nat`
(Python's `d.get(k, 0) + 1` update pattern). -/

/-- A record row: association list of field name → value. -/
def Row : Type := List (String × String)

instance : DecidableEq Row := by unfold Row; infer_instance

instance : Membership (String × String) Row := by unfold Row; infer_instance

instance : Append Row := by unfold Row; infer_instance

/-- `row.get(k, "")`. -/
def rowGet (r : Row) (k : String) : String :=
  match List.find? (fun p => p.1 == k) r with
  | some p => p.2
  | none => ""

/-- `row[k] = v`: replace the binding in place, or append a new one. -/
def rowSet : Row → String → String → Row
  | [], k, v => [(k, v)]
  | p :: rest, k, v =>
    if p.1 == k then (k, v) :: rest else p :: rowSet rest k v

theorem rowGet_rowSet_self (r : Row) (k v : String) :
    rowGet (rowSet r k v) k = v := by
  induction r with
  | nil => simp [rowSet, rowGet, List.find?]
  | cons p rest ih =>
    by_cases h : p.1 = k
    · simp [rowSet, h, rowGet, List.find?]
    · have hb : (p.1 == k) = false := beq_eq_false_iff_ne.mpr h
      simp only [rowSet, hb]
      rw [if_neg (by simp [h])]
      unfold rowGet
      rw [List.find?_cons, hb]
      exact ih

theorem rowGet_rowSet_ne (r : Row) (k k2 v : String) (h : k ≠ k2) :
    rowGet (rowSet r k v) k2 = rowGet r k2 := by
  have hb : (k == k2) = false := beq_eq_false_iff_ne.mpr h
  induction r with
  | nil => simp [rowSet, rowGet, List.find?, hb]
  | cons p rest ih =>
    by_cases hp : p.1 = k
    · rw [rowSet, if_pos (by simp [hp])]
      unfold rowGet
      rw [List.find?_cons, List.find?_cons, hb]
      have : (p.1 == k2) = false := by
        rw [hp]; exact hb
      rw [this]
    · rw [rowSet, if_neg (by simp [hp])]
      unfold rowGet
      rw [List.find?_cons, List.find?_cons]
      cases hpk : (p.1 == k2) with
      | true => rfl
      | false => exact ih

/-- Counter dictionary. -/
def Stats : Type := String → Nat

/-- `stats[k] = stats.get(k, 0) + 1`. -/
def statIncr (st : Stats) (k : String) : Stats :=
  fun k2 => if k2 = k then st k + 1 else st k2

/-- The all-zero counters at the start of a run. -/
def statsZero : Stats := fun _ => 0

/-! ## `process_itau_auto_v2.py`: RUT/DV normalization of a row -/

/-- `rut_clean_digits`: `re.sub(r"[^\dkK]", "", rut or "")`. -/
def rut_clean_digits (rut : String) : String :=
  ⟨rut.data.filter (fun c => c.isDigit || c == 'k' || c == 'K')⟩

/-- `rut_calc_dv`: identical modulo-11 algorithm to
`geocoding_utils.calculate_dv` (duplicated in `process_itau_auto_v2.py`). -/
def rut_calc_dv (numStr : String) : String :=
  if pyIsDigitStr numStr then dvFromTotal (dvTotal numStr) else ""

/-- `normalize_rut_and_dv`: returns `(rut_num, dv_clean, dv_calc, valid)`;
`valid` is `calc == dv_clean` when both `rut_num` and `dv_clean` are
nonempty and `True` (vacuously) otherwise. -/
def normalize_rut_and_dv (rut dv : String) : String × String × String × Bool :=
  let rutNum := rut_clean_digits rut
  let dvClean := pyUpper (clean_text_value dv)
  let calcDv := if rutNum ≠ "" then rut_calc_dv rutNum else ""
  let valid := if rutNum ≠ "" ∧ dvClean ≠ "" then calcDv == dvClean else true
  (rutNum, dvClean, calcDv, valid)

/-- The RUT/DV section of `clean_and_normalize_row` (its lines
`rut_before, dv_before = ...` through `row["DV"] = dv_calc`): normalizes
the two fields, counts `normalized_rut` on any change, counts
`rut_invalid` and (in strict mode, when the recomputed digit is
nonempty) overwrites `DV` only when validation failed. -/
def rutDvStep (strict_dv : Bool) (row : Row) (stats : Stats) : Row × Stats :=
  let rutBefore := rowGet row "RUT"
  let dvBefore := rowGet row "DV"
  let n := normalize_rut_and_dv rutBefore dvBefore
  let stats1 := if n.1 ≠ rutBefore ∨ n.2.1 ≠ dvBefore then
    statIncr stats "normalized_rut" else stats
  let row1 := rowSet (rowSet row "RUT" n.1) "DV" n.2.1
  if n.1 ≠ "" ∧ n.2.1 ≠ "" ∧ n.2.2.2 = false then
    let stats2 := statIncr stats1 "rut_invalid"
    let row2 := if strict_dv = true ∧ n.2.2.1 ≠ "" then
      rowSet row1 "DV" n.2.2.1 else row1
    (row2, stats2)
  else (row1, stats1)

/-- The `(rut_num, dv_clean, dv_calc, valid)` tuple computed for a row. -/
def rutDvParts (row : Row) : String × String × String × Bool :=
  normalize_rut_and_dv (rowGet row "RUT") (rowGet row "DV")

/-- C10: RUT/DV validation is vacuously true on partial input —
`valid` is false exactly when cleaned RUT and cleaned DV are both
nonempty and the recomputed digit differs; the `rut_invalid` counter is
bumped exactly in that case; and `DV` is overwritten with the recomputed
digit only in that case and in strict mode (with nonempty recomputation),
so a record missing its check digit is never counted or corrected. -/
theorem C10_rut_dv_vacuous_on_partial (row : Row) (stats : Stats) (strict : Bool) :
    ((rutDvParts row).2.2.2 = true ↔
      ((rutDvParts row).1 = "" ∨ (rutDvParts row).2.1 = "" ∨
        (rutDvParts row).2.2.1 = (rutDvParts row).2.1)) ∧
    (rutDvStep strict row stats).2 "rut_invalid" =
      (if (rutDvParts row).1 ≠ "" ∧ (rutDvParts row).2.1 ≠ "" ∧
          (rutDvParts row).2.2.2 = false then
        stats "rut_invalid" + 1 else stats "rut_invalid") ∧
    rowGet (rutDvStep strict row stats).1 "DV" =
      (if strict = true ∧ (rutDvParts row).1 ≠ "" ∧ (rutDvParts row).2.1 ≠ "" ∧
          (rutDvParts row).2.2.2 = false ∧ (rutDvParts row).2.2.1 ≠ "" then
        (rutDvParts row).2.2.1 else (rutDvParts row).2.1) := by
  have hiff : (rutDvParts row).2.2.2 = true ↔
      ((rutDvParts row).1 = "" ∨ (rutDvParts row).2.1 = "" ∨
        (rutDvParts row).2.2.1 = (rutDvParts row).2.1) := by
    unfold rutDvParts normalize_rut_and_dv
    by_cases hc : rut_clean_digits (rowGet row "RUT") ≠ "" ∧
        pyUpper (clean_text_value (rowGet row "DV")) ≠ ""
    · simp only [if_pos hc, beq_iff_eq]
      constructor
      · intro h
        exact Or.inr (Or.inr h)
      · intro h
        rcases h with h | h | h
        · exact absurd h hc.1
        · exact absurd h hc.2
        · exact h
    · simp only [if_neg hc]
      constructor
      · intro _
        rcases not_and_or.mp hc with h | h
        · exact Or.inl (not_not.mp h)
        · exact Or.inr (Or.inl (not_not.mp h))
      · intro _
        trivial
  have hstats1 : ∀ (st : Stats),
      (if (rutDvParts row).1 ≠ rowGet row "RUT" ∨
          (rutDvParts row).2.1 ≠ rowGet row "DV" then
        statIncr st "normalized_rut" else st) "rut_invalid" = st "rut_invalid" := by
    intro st
    by_cases hch : (rutDvParts row).1 ≠ rowGet row "RUT" ∨
        (rutDvParts row).2.1 ≠ rowGet row "DV"
    · rw [if_pos hch]
      unfold statIncr
      rw [if_neg (by decide)]
    · rw [if_neg hch]
  refine ⟨hiff, ?_, ?_⟩
  · -- the rut_invalid counter
    show (rutDvStep strict row stats).2 "rut_invalid" = _
    unfold rutDvStep
    simp only
    rw [show normalize_rut_and_dv (rowGet row "RUT") (rowGet row "DV") =
      rutDvParts row from rfl]
    have happ : ∀ (st : Stats), statIncr st "rut_invalid" "rut_invalid" =
        st "rut_invalid" + 1 := by
      intro st
      unfold statIncr
      rw [if_pos rfl]
    by_cases hcond : (rutDvParts row).1 ≠ "" ∧ (rutDvParts row).2.1 ≠ "" ∧
        (rutDvParts row).2.2.2 = false
    · rw [if_pos hcond, if_pos hcond]
      show statIncr _ "rut_invalid" "rut_invalid" = _
      rw [happ, hstats1 stats]
    · rw [if_neg hcond, if_neg hcond]
      exact hstats1 stats
  · -- the DV field
    show rowGet (rutDvStep strict row stats).1 "DV" = _
    unfold rutDvStep
    simp only
    rw [show normalize_rut_and_dv (rowGet row "RUT") (rowGet row "DV") =
      rutDvParts row from rfl]
    by_cases hcond : (rutDvParts row).1 ≠ "" ∧ (rutDvParts row).2.1 ≠ "" ∧
        (rutDvParts row).2.2.2 = false
    · rw [if_pos hcond]
      by_cases hs : strict = true ∧ (rutDvParts row).2.2.1 ≠ ""
      · have hr : strict = true ∧ (rutDvParts row).1 ≠ "" ∧
            (rutDvParts row).2.1 ≠ "" ∧ (rutDvParts row).2.2.2 = false ∧
            (rutDvParts row).2.2.1 ≠ "" :=
          ⟨hs.1, hcond.1, hcond.2.1, hcond.2.2, hs.2⟩
        rw [if_pos hs, if_pos hr]
        exact rowGet_rowSet_self _ _ _
      · have hnr : ¬(strict = true ∧ (rutDvParts row).1 ≠ "" ∧
            (rutDvParts row).2.1 ≠ "" ∧ (rutDvParts row).2.2.2 = false ∧
            (rutDvParts row).2.2.1 ≠ "") :=
          fun hcontra => hs ⟨hcontra.1, hcontra.2.2.2.2⟩
        rw [if_neg hs, if_neg hnr]
        exact rowGet_rowSet_self _ _ _
    · have hnr : ¬(strict = true ∧ (rutDvParts row).1 ≠ "" ∧
          (rutDvParts row).2.1 ≠ "" ∧ (rutDvParts row).2.2.2 = false ∧
          (rutDvParts row).2.2.1 ≠ "") :=
        fun hcontra => hcond ⟨hcontra.2.1, hcontra.2.2.1, hcontra.2.2.2.1⟩
      rw [if_neg hcond, if_neg hnr]
      exact rowGet_rowSet_self _ _ _

/-- C10 witness: a row whose `DV` field is empty is reported valid, not
counted as `rut_invalid`, and not corrected even in strict mode. -/
theorem C10_witness :
    (rutDvParts [("RUT", "12.345.678"), ("DV", "")]).2.2.2 = true ∧
    (rutDvStep true [("RUT", "12.345.678"), ("DV", "")] statsZero).2
        "rut_invalid" = 0 ∧
    rowGet (rutDvStep true [("RUT", "12.345.678"), ("DV", "")] statsZero).1
        "DV" = "" := by
  obtain ⟨h1, h2, h3⟩ :=
    C10_rut_dv_vacuous_on_partial [("RUT", "12.345.678"), ("DV", "")] statsZero true
  refine ⟨?_, ?_, ?_⟩
  · rw [h1]
    right
    left
    decide
  · rw [h2]
    decide
  · rw [h3]
    decide

/-! ## `process_itau_auto_v2.py`: debug-trace reconciliation
(`merge_from_debug`) -/

theorem statIncr_self (st : Stats) (k : String) : statIncr st k k = st k + 1 := by
  unfold statIncr
  rw [if_pos rfl]

theorem statIncr_ne (st : Stats) (k k2 : String) (h : k2 ≠ k) :
    statIncr st k k2 = st k2 := by
  unfold statIncr
  rw [if_neg h]

/-- The parsed `FINAL ROW` trace: key → captured field values. -/
def DebugMap : Type := List (String × Row)

instance : DecidableEq DebugMap := by unfold DebugMap; infer_instance

/-- `debug_map.get(k)`. -/
def debugMapGet (m : DebugMap) (k : String) : Option Row :=
  (List.find? (fun p => p.1 == k) m).map Prod.snd

/-- The key-candidate loop of `merge_from_debug`: skip empty keys, stop
at the first key bound to a *nonempty* trace row (Python's `if cand:`
treats an empty dict as a miss). -/
def lookupCand (m : DebugMap) : List String → Option Row
  | [] => none
  | k :: rest =>
    if k = "" then lookupCand m rest
    else
      match debugMapGet m k with
      | some c => if c = ([] : Row) then lookupCand m rest else some c
      | none => lookupCand m rest

/-- `key_opts`: the operation id, else the composite RUT-DV-NOMBRE key
stripped of leading/trailing dashes. -/
def mergeKeyOpts (row : Row) : List String :=
  [pyStrip (rowGet row "OPERACION"),
   pyStripChars (fun c => c == '-')
     (rowGet row "RUT" ++ "-" ++ rowGet row "DV" ++ "-" ++ rowGet row "NOMBRE")]

/-- The eleven reconciled fields (`pairs` in `merge_from_debug`; source
and destination names coincide). -/
def mergeFields : List String :=
  ["NOMBRE", "DIRECCION", "COMUNA", "FECHA_SUSCRIPCION", "MONTO_CREDITO",
   "FECHA_VENCIMIENTO_1_CUOTA", "FECHA_VENCIMIENTO_ULTIMA_CUOTA",
   "CAPITAL", "PRODUCTO", "NOMBRE_APODERADO", "NOMBRE_APODERADO_2"]

/-- One iteration of the field loop of `merge_from_debug`. -/
def mergeField (mode : String) (cand : Row) (acc : Row × Stats)
    (f : String) : Row × Stats :=
  let vCsv := clean_text_value (rowGet acc.1 f)
  let vDbg := clean_text_value (rowGet cand f)
  if mode = "only_blanks" then
    if vCsv = "" ∧ vDbg ≠ "" then (rowSet acc.1 f vDbg, statIncr acc.2 f)
    else acc
  else if mode = "prefer_debug" then
    if vDbg ≠ "" ∧ vDbg ≠ vCsv then (rowSet acc.1 f vDbg, statIncr acc.2 f)
    else acc
  else acc

/-- `merge_from_debug(row, debug_map, mode, stats_fill, stats)` returning
the updated `(row, stats_fill, stats)`. -/
def merge_from_debug (row : Row) (dm : DebugMap) (mode : String)
    (statsFill : Stats) (stats : Stats) : Row × Stats × Stats :=
  if mode = "none" ∨ dm = ([] : DebugMap) then (row, statsFill, stats)
  else
    match lookupCand dm (mergeKeyOpts row) with
    | none => (row, statsFill, statIncr stats "debug_merge_misses")
    | some cand =>
      let res := mergeFields.foldl (mergeField mode cand) (row, statsFill)
      (res.1, res.2, statIncr stats "debug_merge_hits")

/-- The value the field loop leaves in field `f`, as a function of the
field's current value `v`. -/
def mergeValue (mode : String) (cand : Row) (f v : String) : String :=
  let vCsv := clean_text_value v
  let vDbg := clean_text_value (rowGet cand f)
  if mode = "only_blanks" then (if vCsv = "" ∧ vDbg ≠ "" then vDbg else v)
  else if mode = "prefer_debug" then (if vDbg ≠ "" ∧ vDbg ≠ vCsv then vDbg else v)
  else v

/-- Whether the field loop fills field `f` (bumping its fill counter). -/
def mergeChanges (mode : String) (cand : Row) (f v : String) : Bool :=
  let vCsv := clean_text_value v
  let vDbg := clean_text_value (rowGet cand f)
  if mode = "only_blanks" then decide (vCsv = "" ∧ vDbg ≠ "")
  else if mode = "prefer_debug" then decide (vDbg ≠ "" ∧ vDbg ≠ vCsv)
  else false

theorem mergeField_fst_ne (mode : String) (cand : Row) (acc : Row × Stats)
    (f k : String) (h : k ≠ f) :
    rowGet (mergeField mode cand acc f).1 k = rowGet acc.1 k := by
  unfold mergeField
  by_cases h1 : mode = "only_blanks"
  · rw [if_pos h1]
    by_cases h2 : clean_text_value (rowGet acc.1 f) = "" ∧
        clean_text_value (rowGet cand f) ≠ ""
    · rw [if_pos h2]
      exact rowGet_rowSet_ne _ _ _ _ (Ne.symm h)
    · rw [if_neg h2]
  · rw [if_neg h1]
    by_cases h3 : mode = "prefer_debug"
    · rw [if_pos h3]
      by_cases h2 : clean_text_value (rowGet cand f) ≠ "" ∧
          clean_text_value (rowGet cand f) ≠ clean_text_value (rowGet acc.1 f)
      · rw [if_pos h2]
        exact rowGet_rowSet_ne _ _ _ _ (Ne.symm h)
      · rw [if_neg h2]
    · rw [if_neg h3]

theorem mergeField_snd_ne (mode : String) (cand : Row) (acc : Row × Stats)
    (f k : String) (h : k ≠ f) :
    (mergeField mode cand acc f).2 k = acc.2 k := by
  unfold mergeField
  by_cases h1 : mode = "only_blanks"
  · rw [if_pos h1]
    by_cases h2 : clean_text_value (rowGet acc.1 f) = "" ∧
        clean_text_value (rowGet cand f) ≠ ""
    · rw [if_pos h2]
      exact statIncr_ne _ _ _ h
    · rw [if_neg h2]
  · rw [if_neg h1]
    by_cases h3 : mode = "prefer_debug"
    · rw [if_pos h3]
      by_cases h2 : clean_text_value (rowGet cand f) ≠ "" ∧
          clean_text_value (rowGet cand f) ≠ clean_text_value (rowGet acc.1 f)
      · rw [if_pos h2]
        exact statIncr_ne _ _ _ h
      · rw [if_neg h2]
    · rw [if_neg h3]

theorem mergeField_fst_self (mode : String) (cand : Row) (acc : Row × Stats)
    (f : String) :
    rowGet (mergeField mode cand acc f).1 f = mergeValue mode cand f (rowGet acc.1 f) := by
  unfold mergeField mergeValue
  by_cases h1 : mode = "only_blanks"
  · rw [if_pos h1, if_pos h1]
    by_cases h2 : clean_text_value (rowGet acc.1 f) = "" ∧
        clean_text_value (rowGet cand f) ≠ ""
    · rw [if_pos h2, if_pos h2]
      exact rowGet_rowSet_self _ _ _
    · rw [if_neg h2, if_neg h2]
  · rw [if_neg h1, if_neg h1]
    by_cases h3 : mode = "prefer_debug"
    · rw [if_pos h3, if_pos h3]
      by_cases h2 : clean_text_value (rowGet cand f) ≠ "" ∧
          clean_text_value (rowGet cand f) ≠ clean_text_value (rowGet acc.1 f)
      · rw [if_pos h2, if_pos h2]
        exact rowGet_rowSet_self _ _ _
      · rw [if_neg h2, if_neg h2]
    · rw [if_neg h3, if_neg h3]

theorem mergeField_snd_self (mode : String) (cand : Row) (acc : Row × Stats)
    (f : String) :
    (mergeField mode cand acc f).2 f =
      (if mergeChanges mode cand f (rowGet acc.1 f) then acc.2 f + 1 else acc.2 f) := by
  unfold mergeField mergeChanges
  by_cases h1 : mode = "only_blanks"
  · rw [if_pos h1, if_pos h1]
    by_cases h2 : clean_text_value (rowGet acc.1 f) = "" ∧
        clean_text_value (rowGet cand f) ≠ ""
    · rw [if_pos h2, if_pos (by rw [decide_eq_true h2])]
      exact statIncr_self _ _
    · rw [if_neg h2, if_neg (by rw [decide_eq_false h2]; simp)]
  · rw [if_neg h1, if_neg h1]
    by_cases h3 : mode = "prefer_debug"
    · rw [if_pos h3, if_pos h3]
      by_cases h2 : clean_text_value (rowGet cand f) ≠ "" ∧
          clean_text_value (rowGet cand f) ≠ clean_text_value (rowGet acc.1 f)
      · rw [if_pos h2, if_pos (by rw [decide_eq_true h2])]
        exact statIncr_self _ _
      · rw [if_neg h2, if_neg (by rw [decide_eq_false h2]; simp)]
    · rw [if_neg h3, if_neg h3, if_neg (by simp)]

theorem mergeFold_ne (mode : String) (cand : Row) :
    ∀ (fs : List String) (acc : Row × Stats) (k : String), k ∉ fs →
      rowGet (fs.foldl (mergeField mode cand) acc).1 k = rowGet acc.1 k ∧
      (fs.foldl (mergeField mode cand) acc).2 k = acc.2 k := by
  intro fs
  induction fs with
  | nil => intro acc k _; exact ⟨rfl, rfl⟩
  | cons g rest ih =>
    intro acc k hk
    have hkg : k ≠ g := fun h => hk (h ▸ List.mem_cons_self g rest)
    have hkrest : k ∉ rest := fun h => hk (List.mem_cons_of_mem g h)
    rw [List.foldl_cons]
    obtain ⟨ha, hb⟩ := ih (mergeField mode cand acc g) k hkrest
    exact ⟨ha.trans (mergeField_fst_ne mode cand acc g k hkg),
           hb.trans (mergeField_snd_ne mode cand acc g k hkg)⟩

theorem mergeFold_spec (mode : String) (cand : Row) :
    ∀ (fs : List String), fs.Nodup → ∀ (row : Row) (fill : Stats),
      ∀ f ∈ fs,
        rowGet (fs.foldl (mergeField mode cand) (row, fill)).1 f =
          mergeValue mode cand f (rowGet row f) ∧
        (fs.foldl (mergeField mode cand) (row, fill)).2 f =
          (if mergeChanges mode cand f (rowGet row f) then fill f + 1 else fill f) := by
  intro fs
  induction fs with
  | nil => intro _ row fill f hf; cases hf
  | cons g rest ih =>
    intro hnd row fill f hf
    rw [List.foldl_cons]
    rcases List.mem_cons.mp hf with hfg | hfrest
    · subst hfg
      have hfnotrest : f ∉ rest := (List.nodup_cons.mp hnd).1
      obtain ⟨ha, hb⟩ := mergeFold_ne mode cand rest
        (mergeField mode cand (row, fill) f) f hfnotrest
      constructor
      · rw [ha, mergeField_fst_self]
      · rw [hb, mergeField_snd_self]
    · have hgf : f ≠ g := by
        intro h
        subst h
        exact (List.nodup_cons.mp hnd).1 hfrest
      -- the step at `g` leaves field `f` and its counter untouched
      rcases hacc : mergeField mode cand (row, fill) g with ⟨row2, fill2⟩
      have hrow2 : rowGet row2 f = rowGet row f := by
        have := mergeField_fst_ne mode cand (row, fill) g f hgf
        rw [hacc] at this
        exact this
      have hfill2 : fill2 f = fill f := by
        have := mergeField_snd_ne mode cand (row, fill) g f hgf
        rw [hacc] at this
        exact this
      obtain ⟨ha, hb⟩ := ih (List.nodup_cons.mp hnd).2 row2 fill2 f hfrest
      constructor
      · rw [ha, hrow2]
      · rw [hb, hfill2, hrow2]

/-- C9: the debug-trace merge obeys its fill policy exactly.  Policy
`none` (or an empty trace) returns the record and counters unchanged; a
missed key returns the record unchanged and bumps the miss counter; on a
hit the hit counter is bumped and, per reconciled field: under
`only_blanks` a non-blank field survives unchanged and a blank field is
filled (with its fill counter bumped) from a non-blank trace value;
under `prefer_debug` a non-blank trace value that differs from the
current (cleaned) value overwrites the field. -/
theorem C9_merge_from_debug_policies (row : Row) (dm : DebugMap)
    (sf st : Stats) :
    (merge_from_debug row dm "none" sf st = (row, sf, st)) ∧
    (∀ mode, dm = ([] : DebugMap) →
      merge_from_debug row dm mode sf st = (row, sf, st)) ∧
    (∀ mode, mode ≠ "none" → dm ≠ ([] : DebugMap) →
      lookupCand dm (mergeKeyOpts row) = none →
      merge_from_debug row dm mode sf st =
        (row, sf, statIncr st "debug_merge_misses")) ∧
    (∀ mode cand, mode ≠ "none" → dm ≠ ([] : DebugMap) →
      lookupCand dm (mergeKeyOpts row) = some cand →
      ((merge_from_debug row dm mode sf st).2.2 "debug_merge_hits" =
        st "debug_merge_hits" + 1) ∧
      ∀ f ∈ mergeFields,
        (mode = "only_blanks" → clean_text_value (rowGet row f) ≠ "" →
          rowGet (merge_from_debug row dm mode sf st).1 f = rowGet row f ∧
          (merge_from_debug row dm mode sf st).2.1 f = sf f) ∧
        (mode = "only_blanks" → clean_text_value (rowGet row f) = "" →
          clean_text_value (rowGet cand f) ≠ "" →
          rowGet (merge_from_debug row dm mode sf st).1 f =
            clean_text_value (rowGet cand f) ∧
          (merge_from_debug row dm mode sf st).2.1 f = sf f + 1) ∧
        (mode = "prefer_debug" → clean_text_value (rowGet cand f) ≠ "" →
          clean_text_value (rowGet cand f) ≠ clean_text_value (rowGet row f) →
          rowGet (merge_from_debug row dm mode sf st).1 f =
            clean_text_value (rowGet cand f))) := by
  refine ⟨?_, ?_, ?_, ?_⟩
  · unfold merge_from_debug
    rw [if_pos (Or.inl rfl)]
  · intro mode hdm
    unfold merge_from_debug
    rw [if_pos (Or.inr hdm)]
  · intro mode hmode hdm hmiss
    unfold merge_from_debug
    rw [if_neg (by
      intro h
      rcases h with h | h
      · exact hmode h
      · exact hdm h)]
    rw [hmiss]
  · intro mode cand hmode hdm hhit
    have hentry : merge_from_debug row dm mode sf st =
        ((mergeFields.foldl (mergeField mode cand) (row, sf)).1,
         (mergeFields.foldl (mergeField mode cand) (row, sf)).2,
         statIncr st "debug_merge_hits") := by
      unfold merge_from_debug
      rw [if_neg (by
        intro h
        rcases h with h | h
        · exact hmode h
        · exact hdm h)]
      rw [hhit]
    have hnd : mergeFields.Nodup := by decide
    have h1 : (merge_from_debug row dm mode sf st).1 =
        (mergeFields.foldl (mergeField mode cand) (row, sf)).1 := by
      rw [hentry]
    have h21 : (merge_from_debug row dm mode sf st).2.1 =
        (mergeFields.foldl (mergeField mode cand) (row, sf)).2 := by
      rw [hentry]
    constructor
    · rw [hentry]
      exact statIncr_self st "debug_merge_hits"
    · intro f hf
      obtain ⟨hval, hcnt⟩ := mergeFold_spec mode cand mergeFields hnd row sf f hf
      refine ⟨?_, ?_, ?_⟩
      · intro hmode2 hne
        subst hmode2
        constructor
        · rw [h1, hval]
          unfold mergeValue
          rw [if_pos rfl, if_neg (fun hcontra => hne hcontra.1)]
        · rw [h21, hcnt]
          rw [if_neg (by
            unfold mergeChanges
            rw [if_pos rfl]
            simp only [decide_eq_true_eq, not_and]
            intro h
            exact absurd h hne)]
      · intro hmode2 hblank hdbg
        subst hmode2
        constructor
        · rw [h1, hval]
          unfold mergeValue
          rw [if_pos rfl, if_pos ⟨hblank, hdbg⟩]
        · rw [h21, hcnt]
          rw [if_pos (by
            unfold mergeChanges
            rw [if_pos rfl]
            exact decide_eq_true ⟨hblank, hdbg⟩)]
      · intro hmode2 hdbg hneq
        subst hmode2
        rw [h1, hval]
        unfold mergeValue
        rw [if_neg (by decide), if_pos rfl, if_pos ⟨hdbg, hneq⟩]

/-- C9 witness: with a matching trace entry, `only_blanks` preserves a
populated `NOMBRE`, fills the blank `DIRECCION` (counting the fill), and
`prefer_debug` overwrites `NOMBRE` with the differing trace value. -/
theorem C9_witness :
    rowGet (merge_from_debug
        [("OPERACION", "OP1"), ("NOMBRE", "JUAN"), ("DIRECCION", "")]
        [("OP1", [("NOMBRE", "PEDRO"), ("DIRECCION", "CALLE 1")])]
        "only_blanks" statsZero statsZero).1 "NOMBRE" = "JUAN" ∧
    rowGet (merge_from_debug
        [("OPERACION", "OP1"), ("NOMBRE", "JUAN"), ("DIRECCION", "")]
        [("OP1", [("NOMBRE", "PEDRO"), ("DIRECCION", "CALLE 1")])]
        "only_blanks" statsZero statsZero).1 "DIRECCION" = "CALLE 1" ∧
    (merge_from_debug
        [("OPERACION", "OP1"), ("NOMBRE", "JUAN"), ("DIRECCION", "")]
        [("OP1", [("NOMBRE", "PEDRO"), ("DIRECCION", "CALLE 1")])]
        "only_blanks" statsZero statsZero).2.1 "DIRECCION" = 1 ∧
    rowGet (merge_from_debug
        [("OPERACION", "OP1"), ("NOMBRE", "JUAN"), ("DIRECCION", "")]
        [("OP1", [("NOMBRE", "PEDRO"), ("DIRECCION", "CALLE 1")])]
        "prefer_debug" statsZero statsZero).1 "NOMBRE" = "PEDRO" := by
  have hb := (C9_merge_from_debug_policies
      [("OPERACION", "OP1"), ("NOMBRE", "JUAN"), ("DIRECCION", "")]
      [("OP1", [("NOMBRE", "PEDRO"), ("DIRECCION", "CALLE 1")])]
      statsZero statsZero).2.2.2 "only_blanks"
      [("NOMBRE", "PEDRO"), ("DIRECCION", "CALLE 1")]
      (by decide) (by decide) (by decide)
  have hp := (C9_merge_from_debug_policies
      [("OPERACION", "OP1"), ("NOMBRE", "JUAN"), ("DIRECCION", "")]
      [("OP1", [("NOMBRE", "PEDRO"), ("DIRECCION", "CALLE 1")])]
      statsZero statsZero).2.2.2 "prefer_debug"
      [("NOMBRE", "PEDRO"), ("DIRECCION", "CALLE 1")]
      (by decide) (by decide) (by decide)
  refine ⟨?_, ?_, ?_, ?_⟩
  · have h := ((hb.2 "NOMBRE" (by decide)).1 rfl (by decide)).1
    rw [h]
    decide
  · have h := ((hb.2 "DIRECCION" (by decide)).2.1 rfl (by decide) (by decide)).1
    rw [h]
    decide
  · have h := ((hb.2 "DIRECCION" (by decide)).2.1 rfl (by decide) (by decide)).2
    rw [h]
    decide
  · have h := (hp.2 "NOMBRE" (by decide)).2.2 rfl (by decide) (by decide)
    rw [h]
    decide

/-! ## A small regular-expression engine

Executable matching for the fixed patterns used by
`process_itau_unified_v1.py` (`re.search` existence and first-match
position; the patterns need literals, character classes, alternation,
`\s+`/`\s*`, optional pieces and word boundaries). -/

/-- Regular expressions over characters: empty word, character class,
concatenation, ordered alternation, one-or-more of a class, option. -/
inductive Rx where
  | eps
  | cls (p : Char → Bool)
  | cat (a b : Rx)
  | alt (a b : Rx)
  | rep1 (p : Char → Bool)
  | opt (a : Rx)

/-- All suffixes that remain after matching `rx` against a prefix of `s`
(nonempty iff `rx` matches at this position). -/
def remainders : Rx → List Char → List (List Char)
  | .eps, s => [s]
  | .cls _, [] => []
  | .cls p, c :: rest => if p c then [rest] else []
  | .cat a b, s => (remainders a s).flatMap (remainders b)
  | .alt a b, s => remainders a s ++ remainders b s
  | .rep1 p, s =>
    let run := (s.takeWhile p).length
    (List.range run).map (fun i => s.drop (i + 1))
  | .opt a, s => remainders a s ++ [s]

/-- `re.search(rx, s)`: index of the first position where `rx` matches. -/
def rxSearchIdx (rx : Rx) (s : List Char) : Option Nat :=
  (List.range (s.length + 1)).find? (fun i => !(remainders rx (s.drop i)).isEmpty)

/-- Boolean `re.search` test. -/
def rxTest (rx : Rx) (s : String) : Bool := (rxSearchIdx rx s.data).isSome

/-- Concatenation of a pattern list. -/
def rxCat (l : List Rx) : Rx := l.foldr Rx.cat Rx.eps

/-- Case-insensitive literal. -/
def litCI (t : String) : Rx :=
  rxCat (t.data.map (fun a => Rx.cls (fun c => pyLowerChar c == pyLowerChar a)))

/-- `\s+`. -/
def wsp : Rx := Rx.rep1 pyIsSpace

/-- `\s*`. -/
def wss : Rx := Rx.opt (Rx.rep1 pyIsSpace)

/-- Python `\w` over the Latin repertoire of these documents
(ASCII alphanumerics, underscore, Latin-1 letters). -/
def pyIsWordChar (c : Char) : Bool :=
  c.isAlpha || c.isDigit || c == '_' ||
    (0xC0 ≤ c.toNat && c.toNat ≤ 0xFF && c.toNat ≠ 0xD7 && c.toNat ≠ 0xF7)

/-- True when position `i` of `l` is past the end or a non-word char. -/
def notWordAt (l : List Char) (i : Nat) : Bool :=
  match l.drop i with
  | [] => true
  | c :: _ => !pyIsWordChar c

/-- `\b` holds before position `i`. -/
def boundaryOk (l : List Char) (i : Nat) : Bool :=
  if i = 0 then true else notWordAt l (i - 1)

/-- Case-insensitive literal prefix match. -/
def ciMatchAt : List Char → List Char → Bool
  | [], _ => true
  | _ :: _, [] => false
  | a :: ws, c :: ls => (pyLowerChar c == pyLowerChar a) && ciMatchAt ws ls

/-- `re.search(r'\bW\b', s, re.I)` for a literal word `W`. -/
def searchWordCI (w : String) (s : String) : Bool :=
  (List.range (s.data.length + 1)).any (fun i =>
    boundaryOk s.data i && ciMatchAt w.data (s.data.drop i) &&
      notWordAt s.data (i + w.data.length))

/-! ## `process_itau_unified_v1.py`: candidate scorer/chooser
(`choose_rut_for_doc`) -/

/-- The debtor/signer label pattern:
`(Nombre\s+y\s+Apellidos\s+del\s+deudor|Suscriptor(?:\s+o\s+Deudor)?|Deudor|Cliente\/Deudor)`,
case-insensitive. -/
def susRx : Rx :=
  .alt (rxCat [litCI "Nombre", wsp, litCI "y", wsp, litCI "Apellidos", wsp,
               litCI "del", wsp, litCI "deudor"])
    (.alt (.cat (litCI "Suscriptor")
            (.opt (rxCat [wsp, litCI "o", wsp, litCI "Deudor"])))
      (.alt (litCI "Deudor") (litCI "Cliente/Deudor")))

/-- `banco_pat`: `\bBanco\b|\bIta[uú]\b|Representado por`, case-insensitive. -/
def bancoTest (ctx : String) : Bool :=
  searchWordCI "Banco" ctx || searchWordCI "Itau" ctx || searchWordCI "Itaú" ctx ||
    rxTest (litCI "Representado por") ctx

/-- `C\.L[\/\\]RUT\s+N\*?\s*:`, case-insensitive. -/
def clRutColonRx : Rx :=
  rxCat [litCI "C.L", Rx.cls (fun c => c == '/' || c == '\\'), litCI "RUT",
         wsp, litCI "N", .opt (Rx.cls (fun c => c == '*')), wss,
         Rx.cls (fun c => c == ':')]

/-- `C\.I[\/\\]RUT\s+N[°º]`, case-insensitive. -/
def ciRutNRx : Rx :=
  rxCat [litCI "C.I", Rx.cls (fun c => c == '/' || c == '\\'), litCI "RUT",
         wsp, litCI "N", Rx.cls (fun c => c == '°' || c == 'º')]

/-- One RUT candidate from `find_all_ruts`:
`(start-position, digits, check digit, ±80/120-char context, base weight)`. -/
structure RutCand where
  pos : Nat
  rut : String
  dv : String
  ctx : String
  base : Int
deriving DecidableEq

/-- Position of the first debtor/signer label (`sus.start()`). -/
def susPosOf (text : String) : Option Nat := rxSearchIdx susRx text.data

/-- `max(0, 300 - abs(pos - sus_pos)) // 10`. -/
def proxBonus (pos sp : Nat) : Nat :=
  let dist := if sp ≤ pos then pos - sp else sp - pos
  if 300 ≤ dist then 0 else (300 - dist) / 10

/-- The score of one candidate (loop body of `choose_rut_for_doc`):
base weight, −50 bank-context penalty, PP-specific label bonuses and
debtor-label proximity bonus (CC: identity-block bonus), +2 for a
standard 7–8 digit RUT. -/
def scoreCand (docType : String) (susP : Option Nat) (c : RutCand) : Int :=
  let s1 := if bancoTest c.ctx then c.base - 50 else c.base
  let s2 :=
    if docType = "PP" then
      let a := if 15 ≤ c.base then s1 + 25 else s1
      let b := if rxTest clRutColonRx c.ctx then a + 30 else a
      let d := match susP with
        | some sp => b + Int.ofNat (proxBonus c.pos sp)
        | none => b
      if rxTest ciRutNRx c.ctx then d + 20 else d
    else
      if pyContains c.ctx "Cédula de Identidad" then s1 + 10 else s1
  if 7 ≤ c.rut.length ∧ c.rut.length ≤ 8 then s2 + 2 else s2

/-- Whether a candidate survives the hard exclusion of the bank's own
RUT `97.023.000-9`. -/
def validCand (c : RutCand) : Bool :=
  !(c.rut == "97023000" && c.dv == "9")

/-- One step of the chooser's fold over the candidate list. -/
def chooseStep (docType : String) (susP : Option Nat)
    (acc : Int × Option (String × String)) (c : RutCand) :
    Int × Option (String × String) :=
  if validCand c = false then acc
  else
    let score := scoreCand docType susP c
    if acc.1 < score then (score, some (c.rut, c.dv)) else acc

/-- `choose_rut_for_doc(text, ruts, doc_type)`: fold the candidates with
`best_score` starting at −1; return the best pair or empty strings. -/
def choose_rut_for_doc (text : String) (ruts : List RutCand)
    (docType : String) : String × String :=
  if ruts = [] then ("", "")
  else
    let susP := susPosOf text
    let res := ruts.foldl (chooseStep docType susP) ((-1 : Int), none)
    match res.2 with
    | some p => p
    | none => ("", "")

/-- Running maximum of the valid candidates' scores, seeded with `b`. -/
def bestScore (docType : String) (susP : Option Nat)
    (l : List RutCand) (b : Int) : Int :=
  l.foldl (fun m c => if validCand c then max m (scoreCand docType susP c) else m) b

theorem le_bestScore_init (docType : String) (susP : Option Nat) :
    ∀ (l : List RutCand) (b : Int), b ≤ bestScore docType susP l b := by
  intro l
  induction l with
  | nil => intro b; exact le_refl b
  | cons c rest ih =>
    intro b
    unfold bestScore
    rw [List.foldl_cons]
    by_cases hv : validCand c
    · rw [if_pos hv]
      exact le_trans (le_max_left b _) (ih (max b (scoreCand docType susP c)))
    · rw [if_neg hv]
      exact ih b

theorem le_bestScore_mem (docType : String) (susP : Option Nat) :
    ∀ (l : List RutCand) (b : Int) (c : RutCand), c ∈ l → validCand c = true →
      scoreCand docType susP c ≤ bestScore docType susP l b := by
  intro l
  induction l with
  | nil => intro b c hc; cases hc
  | cons d rest ih =>
    intro b c hc hv
    unfold bestScore
    rw [List.foldl_cons]
    rcases List.mem_cons.mp hc with h | h
    · subst h
      rw [if_pos hv]
      exact le_trans (le_max_right b _) (le_bestScore_init docType susP rest _)
    · by_cases hvd : validCand d
      · rw [if_pos hvd]
        exact ih _ c h hv
      · rw [if_neg hvd]
        exact ih b c h hv

/-- The chooser's fold computes the running maximum, and records the
first valid candidate that strictly improved on the seed. -/
theorem chooseFold_eq (docType : String) (susP : Option Nat) :
    ∀ (l : List RutCand) (b : Int) (o : Option (String × String)),
      l.foldl (chooseStep docType susP) (b, o) =
        (bestScore docType susP l b,
         if b < bestScore docType susP l b then
           (l.find? (fun c => validCand c &&
             decide (scoreCand docType susP c = bestScore docType susP l b))).map
               (fun c => (c.rut, c.dv))
         else o) := by
  intro l
  induction l with
  | nil =>
    intro b o
    simp [bestScore, lt_irrefl]
  | cons c rest ih =>
    intro b o
    rw [List.foldl_cons]
    by_cases hv : validCand c
    · have hbs : bestScore docType susP (c :: rest) b =
          bestScore docType susP rest (max b (scoreCand docType susP c)) := by
        unfold bestScore
        rw [List.foldl_cons, if_pos hv]
      by_cases himp : b < scoreCand docType susP c
      · -- the candidate strictly improves the running best
        have hmax : max b (scoreCand docType susP c) = scoreCand docType susP c :=
          max_eq_right (le_of_lt himp)
        have hB : bestScore docType susP (c :: rest) b =
            bestScore docType susP rest (scoreCand docType susP c) := by
          rw [hbs, hmax]
        have hstep : chooseStep docType susP (b, o) c =
            (scoreCand docType susP c, some (c.rut, c.dv)) := by
          unfold chooseStep
          rw [if_neg (by simp [hv]), if_pos himp]
        rw [hstep, ih (scoreCand docType susP c) (some (c.rut, c.dv)), hB]
        have hbB : b < bestScore docType susP rest (scoreCand docType susP c) :=
          lt_of_lt_of_le himp (le_bestScore_init docType susP rest _)
        rw [if_pos hbB]
        by_cases hsb : scoreCand docType susP c <
            bestScore docType susP rest (scoreCand docType susP c)
        · rw [if_pos hsb, List.find?_cons_of_neg]
          simp only [Bool.and_eq_true, decide_eq_true_eq, not_and]
          intro _
          exact ne_of_lt hsb
        · have hseq : scoreCand docType susP c =
              bestScore docType susP rest (scoreCand docType susP c) :=
            le_antisymm (le_bestScore_init docType susP rest _) (not_lt.mp hsb)
          rw [if_neg hsb, List.find?_cons_of_pos]
          · rfl
          · simp [hv, ← hseq]
      · -- the candidate does not improve the running best
        have hmax : max b (scoreCand docType susP c) = b :=
          max_eq_left (not_lt.mp himp)
        have hB : bestScore docType susP (c :: rest) b =
            bestScore docType susP rest b := by
          rw [hbs, hmax]
        have hstep : chooseStep docType susP (b, o) c = (b, o) := by
          unfold chooseStep
          rw [if_neg (by simp [hv]), if_neg himp]
        rw [hstep, ih b o, hB]
        by_cases hbB : b < bestScore docType susP rest b
        · rw [if_pos hbB, if_pos hbB, List.find?_cons_of_neg]
          simp only [Bool.and_eq_true, decide_eq_true_eq, not_and]
          intro _
          exact ne_of_lt (lt_of_le_of_lt (not_lt.mp himp) hbB)
        · rw [if_neg hbB, if_neg hbB]
    · -- the candidate is the excluded bank RUT
      have hvf : validCand c = false := by
        revert hv
        cases validCand c <;> simp
      have hbs2 : bestScore docType susP (c :: rest) b =
          bestScore docType susP rest b := by
        unfold bestScore
        rw [List.foldl_cons, if_neg hv]
      have hstep : chooseStep docType susP (b, o) c = (b, o) := by
        unfold chooseStep
        rw [if_pos hvf]
      rw [hstep, ih b o, hbs2]
      by_cases hbB : b < bestScore docType susP rest b
      · rw [if_pos hbB, if_pos hbB, List.find?_cons_of_neg]
        simp [hvf]
      · rw [if_neg hbB, if_neg hbB]

theorem bestScore_attained (docType : String) (susP : Option Nat) :
    ∀ (l : List RutCand) (b : Int), b < bestScore docType susP l b →
      ∃ c ∈ l, validCand c = true ∧
        scoreCand docType susP c = bestScore docType susP l b := by
  intro l
  induction l with
  | nil =>
    intro b hb
    rw [show bestScore docType susP [] b = b from rfl] at hb
    exact absurd hb (lt_irrefl b)
  | cons c rest ih =>
    intro b hb
    by_cases hv : validCand c
    · have hbs : bestScore docType susP (c :: rest) b =
          bestScore docType susP rest (max b (scoreCand docType susP c)) := by
        unfold bestScore
        rw [List.foldl_cons, if_pos hv]
      by_cases hseq : scoreCand docType susP c = bestScore docType susP (c :: rest) b
      · exact ⟨c, List.mem_cons_self c rest, hv, hseq⟩
      · have hle : max b (scoreCand docType susP c) ≤
            bestScore docType susP (c :: rest) b := by
          rw [hbs]
          exact le_bestScore_init docType susP rest _
        have hlt : max b (scoreCand docType susP c) <
            bestScore docType susP (c :: rest) b := by
          rcases lt_or_eq_of_le hle with h | h
          · exact h
          · exfalso
            rcases max_choice b (scoreCand docType susP c) with hm | hm
            · rw [hm] at h
              rw [← h] at hb
              exact lt_irrefl b hb
            · rw [hm] at h
              exact hseq h
        rw [hbs] at hlt
        obtain ⟨c2, hc2mem, hc2v, hc2s⟩ := ih (max b (scoreCand docType susP c)) hlt
        refine ⟨c2, List.mem_cons_of_mem c hc2mem, hc2v, ?_⟩
        rw [hc2s, hbs]
    · have hvf : validCand c = false := by
        revert hv
        cases validCand c <;> simp
      have hbs2 : bestScore docType susP (c :: rest) b =
          bestScore docType susP rest b := by
        unfold bestScore
        rw [List.foldl_cons, if_neg hv]
      rw [hbs2] at hb
      obtain ⟨c2, hc2mem, hc2v, hc2s⟩ := ih b hb
      refine ⟨c2, List.mem_cons_of_mem c hc2mem, hc2v, ?_⟩
      rw [hc2s, hbs2]

theorem choose_eq_empty_of_le (text : String) (ruts : List RutCand) (dt : String)
    (hB : ¬ (-1 : Int) < bestScore dt (susPosOf text) ruts (-1)) :
    choose_rut_for_doc text ruts dt = ("", "") := by
  unfold choose_rut_for_doc
  by_cases hnil : ruts = []
  · rw [if_pos hnil]
  · rw [if_neg hnil]
    show (match (List.foldl (chooseStep dt (susPosOf text))
            ((-1 : Int), none) ruts).2 with
          | some p => p
          | none => ("", "")) = ("", "")
    rw [chooseFold_eq, if_neg hB]

theorem choose_eq_of_lt (text : String) (ruts : List RutCand) (dt : String)
    (hB : (-1 : Int) < bestScore dt (susPosOf text) ruts (-1)) :
    ∃ c, ruts.find? (fun c => validCand c &&
        decide (scoreCand dt (susPosOf text) c =
          bestScore dt (susPosOf text) ruts (-1))) = some c ∧
      validCand c = true ∧
      scoreCand dt (susPosOf text) c = bestScore dt (susPosOf text) ruts (-1) ∧
      choose_rut_for_doc text ruts dt = (c.rut, c.dv) := by
  have hnil : ruts ≠ [] := by
    intro h
    subst h
    rw [show bestScore dt (susPosOf text) [] (-1) = -1 from rfl] at hB
    exact lt_irrefl _ hB
  obtain ⟨c0, hc0mem, hc0v, hc0s⟩ :=
    bestScore_attained dt (susPosOf text) ruts (-1) hB
  have hsome : (ruts.find? (fun c => validCand c &&
      decide (scoreCand dt (susPosOf text) c =
        bestScore dt (susPosOf text) ruts (-1)))).isSome := by
    rw [List.find?_isSome]
    exact ⟨c0, hc0mem, by simp [hc0v, hc0s]⟩
  rcases hfind : ruts.find? (fun c => validCand c &&
      decide (scoreCand dt (susPosOf text) c =
        bestScore dt (susPosOf text) ruts (-1))) with _ | c1
  · rw [hfind] at hsome
    simp at hsome
  · have hpred := List.find?_some hfind
    simp only [Bool.and_eq_true, decide_eq_true_eq] at hpred
    refine ⟨c1, rfl, hpred.1, hpred.2, ?_⟩
    unfold choose_rut_for_doc
    rw [if_neg hnil]
    show (match (List.foldl (chooseStep dt (susPosOf text))
            ((-1 : Int), none) ruts).2 with
          | some p => p
          | none => ("", "")) = (c1.rut, c1.dv)
    rw [chooseFold_eq, if_pos hB, hfind]
    rfl

/-- C5 (amended): the chooser returns the value of the first candidate
*in candidate-list order* that attains the maximal score over
non-excluded candidates, provided that maximum beats the −1 seed (so all
scores negative, all candidates excluded, or an empty list yield empty
values).  List order is pattern-priority order, not text order, so exact
ties are broken toward the earlier pattern, not the lower position. -/
theorem C5_choose_characterization (text : String) (ruts : List RutCand)
    (dt : String) :
    (∀ c ∈ ruts, validCand c = true →
      scoreCand dt (susPosOf text) c ≤ bestScore dt (susPosOf text) ruts (-1)) ∧
    (¬ (-1 : Int) < bestScore dt (susPosOf text) ruts (-1) →
      choose_rut_for_doc text ruts dt = ("", "")) ∧
    ((-1 : Int) < bestScore dt (susPosOf text) ruts (-1) →
      ∃ c, ruts.find? (fun c => validCand c &&
          decide (scoreCand dt (susPosOf text) c =
            bestScore dt (susPosOf text) ruts (-1))) = some c ∧
        validCand c = true ∧
        scoreCand dt (susPosOf text) c = bestScore dt (susPosOf text) ruts (-1) ∧
        choose_rut_for_doc text ruts dt = (c.rut, c.dv)) :=
  ⟨fun c hc hv => le_bestScore_mem dt (susPosOf text) ruts (-1) c hc hv,
   fun hB => choose_eq_empty_of_le text ruts dt hB,
   fun hB => choose_eq_of_lt text ruts dt hB⟩

/-- C5 counterexample: two candidates with exactly equal scores where
the candidate at the *higher* text position is first in the candidate
list (higher-priority pattern family, as `find_all_ruts` orders them);
the chooser picks it, not the lower-position one. -/
theorem C5_counterexample :
    scoreCand "CC" (susPosOf "pagina")
        ⟨200, "123456789", "5", "x", 15⟩ =
      scoreCand "CC" (susPosOf "pagina")
        ⟨10, "1234567", "8", "Cédula de Identidad 1.234.567-8", 3⟩ ∧
    (10 : Nat) < 200 ∧
    choose_rut_for_doc "pagina"
      [⟨200, "123456789", "5", "x", 15⟩,
       ⟨10, "1234567", "8", "Cédula de Identidad 1.234.567-8", 3⟩] "CC" =
      ("123456789", "5") ∧
    ("123456789", "5") ≠ ("1234567", "8") := by decide

/-- C5 witness: a lone bank-context candidate scores below the −1 seed
and the chooser returns empty values; and a concrete candidate's score
is bounded by the running maximum. -/
theorem C5_witness :
    choose_rut_for_doc "pagina" [⟨5, "1112223", "4", "pagado al Banco por", 2⟩]
      "CC" = ("", "") ∧
    scoreCand "CC" (susPosOf "pagina")
        ⟨10, "1234567", "8", "Cédula de Identidad 1.234.567-8", 3⟩ ≤
      bestScore "CC" (susPosOf "pagina")
        [⟨200, "123456789", "5", "x", 15⟩,
         ⟨10, "1234567", "8", "Cédula de Identidad 1.234.567-8", 3⟩] (-1) :=
  ⟨(C5_choose_characterization "pagina"
      [⟨5, "1112223", "4", "pagado al Banco por", 2⟩] "CC").2.1 (by decide),
   (C5_choose_characterization "pagina"
      [⟨200, "123456789", "5", "x", 15⟩,
       ⟨10, "1234567", "8", "Cédula de Identidad 1.234.567-8", 3⟩] "CC").1
     ⟨10, "1234567", "8", "Cédula de Identidad 1.234.567-8", 3⟩
     (by decide) (by decide)⟩

/-- `text[a:b]` (Python slice with clamping). -/
def pySlice (s : String) (a b : Nat) : String := ⟨(s.data.take b).drop a⟩

/-- C6 counterexample page: the institution's literal RUT in a
"Representado por Banco …" context and a debtor RUT right after a
"Suscriptor:" label. -/
def c6Text : String :=
  "Representado por Banco Itau 97.023.000-9 Suscriptor: 1234567-8"

/-- The candidates `find_all_ruts` yields on `c6Text`: the dotted
generic match of the bank's RUT (base 3) and the plain generic match of
the debtor's (base 2), each with its ±80/120-character context window
(here the whole page). -/
def c6Ruts : List RutCand :=
  [⟨28, "97023000", "9", pySlice c6Text 0 148, 3⟩,
   ⟨53, "1234567", "8", pySlice c6Text 0 173, 2⟩]

/-- C6 (amended): the chooser never returns the institution's literal
RUT `97.023.000-9` — it is unconditionally excluded — and whenever every
candidate is either that excluded pair or the debtor's pair and some
debtor candidate scores at least 0, the debtor's pair is returned. -/
theorem C6_institution_never_debtor_when_scored :
    (∀ (text : String) (ruts : List RutCand) (dt : String),
      choose_rut_for_doc text ruts dt ≠ ("97023000", "9")) ∧
    (∀ (text : String) (ruts : List RutCand) (dt dr ddv : String),
      (∀ c ∈ ruts, (c.rut = "97023000" ∧ c.dv = "9") ∨ (c.rut = dr ∧ c.dv = ddv)) →
      ¬(dr = "97023000" ∧ ddv = "9") →
      (∃ c ∈ ruts, c.rut = dr ∧ c.dv = ddv ∧
        0 ≤ scoreCand dt (susPosOf text) c) →
      choose_rut_for_doc text ruts dt = (dr, ddv)) := by
  constructor
  · intro text ruts dt
    by_cases hB : (-1 : Int) < bestScore dt (susPosOf text) ruts (-1)
    · obtain ⟨c, _, hcv, _, hch⟩ := choose_eq_of_lt text ruts dt hB
      rw [hch]
      intro heq
      have h1 : c.rut = "97023000" := congrArg Prod.fst heq
      have h2 : c.dv = "9" := congrArg Prod.snd heq
      unfold validCand at hcv
      rw [h1, h2] at hcv
      simp at hcv
    · rw [choose_eq_empty_of_le text ruts dt hB]
      decide
  · intro text ruts dt dr ddv hall hbank hex
    obtain ⟨c0, hc0mem, hc0r, hc0d, hc0s⟩ := hex
    have hc0v : validCand c0 = true := by
      unfold validCand
      rw [hc0r, hc0d]
      simp only [Bool.not_eq_true', Bool.and_eq_false_iff, beq_eq_false_iff_ne]
      exact not_and_or.mp hbank
    have hB : (-1 : Int) < bestScore dt (susPosOf text) ruts (-1) :=
      lt_of_lt_of_le (by norm_num)
        (le_trans hc0s (le_bestScore_mem dt (susPosOf text) ruts (-1) c0 hc0mem hc0v))
    obtain ⟨c1, hfind, hc1v, _, hch⟩ := choose_eq_of_lt text ruts dt hB
    have hc1mem : c1 ∈ ruts := List.mem_of_find?_eq_some hfind
    rcases hall c1 hc1mem with hb1 | hd1
    · exfalso
      unfold validCand at hc1v
      rw [hb1.1, hb1.2] at hc1v
      simp at hc1v
    · rw [hch, hd1.1, hd1.2]

/-- C6 counterexample: on a page holding both the institution's literal
RUT in a "Representado por Banco …" context and a debtor's RUT right
after "Suscriptor:", the penalty can also sink the *debtor's* candidate
(bank tokens inside its ±80-character context window), so the chooser
returns empty values — it does not select the debtor's ID, refuting
"always dominates". -/
theorem C6_counterexample :
    pyContains c6Text "Representado por Banco" = true ∧
    pyContains c6Text "Suscriptor:" = true ∧
    (∃ c ∈ c6Ruts, c.rut = "1234567" ∧ c.dv = "8" ∧ c.pos = 53) ∧
    choose_rut_for_doc c6Text c6Ruts "PP" = ("", "") ∧
    (("", "") : String × String) ≠ ("1234567", "8") := by decide

/-- C6 witness: a debtor candidate from a labelled pattern (clean
context, nonnegative score) is selected over the excluded institutional
RUT; and on the counterexample page the institution's pair is still
never returned. -/
theorem C6_witness :
    choose_rut_for_doc "Suscriptor: Juan Perez"
      [⟨5, "97023000", "9", "Representado por Banco Itau 97.023.000-9", 3⟩,
       ⟨200, "12345678", "5", "Suscriptor: Juan Perez C.I/RUT N°: 12.345.678-5", 18⟩]
      "PP" = ("12345678", "5") ∧
    choose_rut_for_doc c6Text c6Ruts "PP" ≠ ("97023000", "9") :=
  ⟨C6_institution_never_debtor_when_scored.2 "Suscriptor: Juan Perez"
      [⟨5, "97023000", "9", "Representado por Banco Itau 97.023.000-9", 3⟩,
       ⟨200, "12345678", "5", "Suscriptor: Juan Perez C.I/RUT N°: 12.345.678-5", 18⟩]
      "PP" "12345678" "5" (by decide) (by decide) (by decide),
   C6_institution_never_debtor_when_scored.1 c6Text c6Ruts "PP"⟩

/-! ## `process_itau_unified_v1.py`: document classifier
(`detect_document_type`) -/

/-- Promissory-note (PP) indicator phrases. -/
def pp_indicators : List String :=
  ["PAGARÉ", "PAGARE", "PAGARÁ", "DOCUMENTO MERCANTIL", "VALOR RECIBIDO",
   "CONTRAVALOR RECIBIDO", "ME OBLIGO A PAGAR", "VENCIMIENTO"]

/-- Installment-loan (CC) indicator phrases. -/
def cc_indicators : List String :=
  ["CRÉDITO DE CONSUMO", "CREDITO DE CONSUMO", "LÍNEA DE CRÉDITO",
   "CONTRATO DE MUTUO", "CUOTAS", "TASA DE INTERÉS", "CRONOGRAMA",
   "TABLA DE DESARROLLO", "PLAN DE PAGOS"]

/-- `[ée]`, case-insensitive. -/
def clsEE : Rx := Rx.cls (fun c => pyLowerChar c == 'e' || pyLowerChar c == 'é')

/-- `re.search(r'\ben\s+\d+\s+cuotas\b', s, re.I)`. -/
def searchEnCuotas (s : String) : Bool :=
  (List.range (s.data.length + 1)).any (fun i =>
    boundaryOk s.data i &&
      (remainders (rxCat [litCI "en", wsp, Rx.rep1 Char.isDigit, wsp,
          litCI "cuotas"]) (s.data.drop i)).any (fun rest =>
        match rest with
        | [] => true
        | c :: _ => !pyIsWordChar c))

/-- `pagar[ée]?\s+cr[ée]dito\s+de?\s+consumo`, case-insensitive. -/
def pagareCreditoRx : Rx :=
  rxCat [litCI "pagar", .opt clsEE, wsp, litCI "cr", clsEE, litCI "dito",
         wsp, litCI "d", .opt (Rx.cls (fun c => pyLowerChar c == 'e')), wsp,
         litCI "consumo"]

/-- `pagar[ée]|me\s+obligo\s+a\s+pagar`, case-insensitive. -/
def pagareOrObligoRx : Rx :=
  .alt (.cat (litCI "pagar") clsEE)
    (rxCat [litCI "me", wsp, litCI "obligo", wsp, litCI "a", wsp, litCI "pagar"])

/-- `Nombre\s+y\s+Apellidos\s+del\s+deudor`, case-insensitive. -/
def nombreApellidosRx : Rx :=
  rxCat [litCI "Nombre", wsp, litCI "y", wsp, litCI "Apellidos", wsp,
         litCI "del", wsp, litCI "deudor"]

/-- `C[eé]dula\s+de\s+Identidad`, case-insensitive. -/
def cedulaIdentRx : Rx :=
  rxCat [litCI "C", clsEE, litCI "dula", wsp, litCI "de", wsp, litCI "Identidad"]

/-- `detect_document_type(text_pages)`: indicator-presence scores over
the uppercased joined text, structural regex bonuses (installments
phrase +3 CC, "pagaré crédito de consumo" +10 CC, "pagaré / me obligo a
pagar" +3 PP, CC identity-block header pair +4 CC), then `"PP"` iff
`pp_score > cc_score`, else `"CC"`. -/
def detect_document_type (text_pages : List String) : String :=
  let combined := String.intercalate "\n" text_pages
  let up := pyUpper combined
  let pp0 := pp_indicators.countP (fun ind => pyContains up ind)
  let cc0 := cc_indicators.countP (fun ind => pyContains up ind)
  let cc1 := if searchEnCuotas combined then cc0 + 3 else cc0
  let cc2 := if rxTest pagareCreditoRx combined then cc1 + 10 else cc1
  let pp1 := if rxTest pagareOrObligoRx combined then pp0 + 3 else pp0
  let cc3 := if rxTest nombreApellidosRx combined && rxTest cedulaIdentRx combined
    then cc2 + 4 else cc2
  if cc3 < pp1 then "PP" else "CC"

/-- Modelled from the spec's §4.5 wording: one keyword score per type
(count of type-indicative phrases present), plus the structural bonuses,
as plain sums. -/
def ppScoreSpec (text_pages : List String) : Nat :=
  let combined := String.intercalate "\n" text_pages
  pp_indicators.countP (fun ind => pyContains (pyUpper combined) ind) +
    (if rxTest pagareOrObligoRx combined then 3 else 0)

/-- Spec-side CC score: keyword count plus the three CC bonuses. -/
def ccScoreSpec (text_pages : List String) : Nat :=
  let combined := String.intercalate "\n" text_pages
  cc_indicators.countP (fun ind => pyContains (pyUpper combined) ind) +
    (if searchEnCuotas combined then 3 else 0) +
    (if rxTest pagareCreditoRx combined then 10 else 0) +
    (if rxTest nombreApellidosRx combined && rxTest cedulaIdentRx combined
      then 4 else 0)

/-- Spec-side classifier: strictly higher score wins, ties go to the
installment-loan type. -/
def detectSpec (text_pages : List String) : String :=
  if ccScoreSpec text_pages < ppScoreSpec text_pages then "PP" else "CC"

theorem add_if_push (p : Prop) [Decidable p] (x k : Nat) :
    (if p then x + k else x) = x + (if p then k else 0) := by
  by_cases h : p
  · rw [if_pos h, if_pos h]
  · rw [if_neg h, if_neg h, Nat.add_zero]

/-- C7: the classifier equals the spec-side description — keyword
scores plus the structural bonuses, the type with strictly higher score
returned — and exact ties deterministically yield the installment-loan
type `"CC"`. -/
theorem C7_detect_document_type_spec (text_pages : List String) :
    detect_document_type text_pages = detectSpec text_pages ∧
    (ppScoreSpec text_pages = ccScoreSpec text_pages →
      detect_document_type text_pages = "CC") := by
  have heq : detect_document_type text_pages = detectSpec text_pages := by
    unfold detect_document_type detectSpec ppScoreSpec ccScoreSpec
    simp only [add_if_push]
  refine ⟨heq, fun htie => ?_⟩
  rw [heq]
  unfold detectSpec
  rw [if_neg (by rw [htie]; exact lt_irrefl _)]

/-- C7 witness: a page with one indicator of each type ties 1–1 and the
classifier returns the installment-loan label. -/
theorem C7_witness :
    ppScoreSpec ["VENCIMIENTO CUOTAS"] = ccScoreSpec ["VENCIMIENTO CUOTAS"] ∧
    detect_document_type ["VENCIMIENTO CUOTAS"] = "CC" :=
  ⟨by decide, (C7_detect_document_type_spec ["VENCIMIENTO CUOTAS"]).2 (by decide)⟩

/-! ## `ocr_to_csv.py`: page OCR text extraction
(`OCRToCSV.extract_text_from_image`)

The four Tesseract invocations are modelled as a list of outcomes
(`none` = the configuration raised; `some t` = recognized text). -/

/-- `text.split('\n')` over characters. -/
def splitNl : List Char → List (List Char)
  | [] => [[]]
  | c :: rest =>
    if c = '\n' then [] :: splitNl rest
    else
      match splitNl rest with
      | h :: t => (c :: h) :: t
      | [] => [[c]]

/-- `'\n'.join(...)` over characters. -/
def joinNl : List (List Char) → List Char
  | [] => []
  | [l] => l
  | l :: ls => l ++ '\n' :: joinNl ls

/-- Order-preserving duplicate removal (the deterministic model of the
Python `set` of lines). -/
def dedupAux : List (List Char) → List (List Char) → List (List Char)
  | _, [] => []
  | seen, l :: rest =>
    if l ∈ seen then dedupAux seen rest else l :: dedupAux (l :: seen) rest

/-- Deduplicated lines, first occurrence kept. -/
def dedupNl (ls : List (List Char)) : List (List Char) := dedupAux [] ls

/-- Stable insertion into a length-descending sorted list. -/
def insertLenDesc (x : List Char) : List (List Char) → List (List Char)
  | [] => [x]
  | y :: ys => if y.length ≤ x.length then x :: y :: ys else y :: insertLenDesc x ys

/-- `sorted(lines, key=len, reverse=True)` (stable). -/
def sortLenDesc (ls : List (List Char)) : List (List Char) :=
  ls.foldr insertLenDesc []

/-- The stripped, nonempty OCR results kept by the configuration loop
(a failed configuration contributes nothing). -/
def keptResults (attempts : List (Option String)) : List String :=
  attempts.filterMap (fun r =>
    match r with
    | none => none
    | some t => if pyStrip t = "" then none else some (pyStrip t))

/-- Python `max(text_results, key=len)` — the first longest result. -/
def maxByLenFirst : List String → String
  | [] => ""
  | t :: rest => rest.foldl (fun acc u => if acc.length < u.length then u else acc) t

/-- `extract_text_from_image`: if any configuration produced nonempty
text, return the unique lines of all results sorted by length, longest
first, joined by newlines (the computed `best_text` primary is a subset
of those lines); otherwise the empty string. -/
def extract_text_from_image (attempts : List (Option String)) : String :=
  if keptResults attempts = [] then ""
  else
    ⟨joinNl (sortLenDesc (dedupNl
      ((keptResults attempts).flatMap (fun t => splitNl t.data))))⟩

theorem splitNl_ne_nil (s : List Char) : splitNl s ≠ [] := by
  cases s with
  | nil => simp [splitNl]
  | cons c rest =>
    rw [splitNl]
    by_cases h : c = '\n'
    · rw [if_pos h]; simp
    · rw [if_neg h]
      rcases hs : splitNl rest with _ | ⟨h1, t1⟩ <;> simp

theorem mem_splitNl_no_nl (s : List Char) :
    ∀ l ∈ splitNl s, '\n' ∉ l := by
  induction s with
  | nil =>
    intro l hl
    rw [splitNl] at hl
    simp at hl
    subst hl
    simp
  | cons c rest ih =>
    intro l hl
    rw [splitNl] at hl
    by_cases h : c = '\n'
    · rw [if_pos h] at hl
      rcases List.mem_cons.mp hl with h1 | h1
      · subst h1; simp
      · exact ih l h1
    · rw [if_neg h] at hl
      rcases hs : splitNl rest with _ | ⟨h1, t1⟩
      · exact absurd hs (splitNl_ne_nil rest)
      · rw [hs] at hl
        rcases List.mem_cons.mp hl with h2 | h2
        · subst h2
          intro hmem
          rcases List.mem_cons.mp hmem with h3 | h3
          · exact h h3.symm
          · exact ih h1 (hs ▸ List.mem_cons_self h1 t1) h3
        · exact ih l (hs ▸ List.mem_cons_of_mem h1 h2)

theorem splitNl_no_nl_self (l : List Char) (h : '\n' ∉ l) :
    splitNl l = [l] := by
  induction l with
  | nil => rfl
  | cons c rest ih =>
    have hc : c ≠ '\n' := fun hh => h (hh ▸ List.mem_cons_self c rest)
    have hrest : '\n' ∉ rest := fun hh => h (List.mem_cons_of_mem c hh)
    rw [splitNl, if_neg hc, ih hrest]

theorem splitNl_append_nl (l s : List Char) (h : '\n' ∉ l) :
    splitNl (l ++ '\n' :: s) = l :: splitNl s := by
  induction l with
  | nil =>
    rw [List.nil_append, splitNl, if_pos rfl]
  | cons c rest ih =>
    have hc : c ≠ '\n' := fun hh => h (hh ▸ List.mem_cons_self c rest)
    have hrest : '\n' ∉ rest := fun hh => h (List.mem_cons_of_mem c hh)
    rw [List.cons_append, splitNl, if_neg hc, ih hrest]

theorem splitNl_joinNl (ls : List (List Char)) (hne : ls ≠ [])
    (hnl : ∀ l ∈ ls, '\n' ∉ l) : splitNl (joinNl ls) = ls := by
  induction ls with
  | nil => exact absurd rfl hne
  | cons l rest ih =>
    cases rest with
    | nil =>
      rw [show joinNl [l] = l from rfl]
      rw [splitNl_no_nl_self l (hnl l (List.mem_cons_self l []))]
    | cons m rest2 =>
      rw [show joinNl (l :: m :: rest2) = l ++ '\n' :: joinNl (m :: rest2) from rfl]
      rw [splitNl_append_nl l _ (hnl l (List.mem_cons_self l _))]
      rw [ih (by simp) (fun x hx => hnl x (List.mem_cons_of_mem l hx))]

theorem mem_dedupAux (x : List Char) :
    ∀ (ls seen : List (List Char)),
      (x ∈ dedupAux seen ls ↔ x ∈ ls ∧ x ∉ seen) := by
  intro ls
  induction ls with
  | nil => intro seen; simp [dedupAux]
  | cons l rest ih =>
    intro seen
    rw [dedupAux]
    by_cases h : l ∈ seen
    · rw [if_pos h, ih seen]
      constructor
      · intro ⟨h1, h2⟩
        exact ⟨List.mem_cons_of_mem l h1, h2⟩
      · intro ⟨h1, h2⟩
        rcases List.mem_cons.mp h1 with h3 | h3
        · subst h3; exact absurd h h2
        · exact ⟨h3, h2⟩
    · rw [if_neg h]
      constructor
      · intro hm
        rcases List.mem_cons.mp hm with h1 | h1
        · subst h1; exact ⟨List.mem_cons_self x rest, h⟩
        · obtain ⟨h2, h3⟩ := (ih (l :: seen)).mp h1
          refine ⟨List.mem_cons_of_mem l h2, fun hx => h3 (List.mem_cons_of_mem l hx)⟩
      · intro ⟨h1, h2⟩
        rcases List.mem_cons.mp h1 with h3 | h3
        · subst h3; exact List.mem_cons_self x _
        · by_cases hx : x = l
          · subst hx; exact List.mem_cons_self x _
          · refine List.mem_cons_of_mem l ((ih (l :: seen)).mpr ⟨h3, ?_⟩)
            intro hmem
            rcases List.mem_cons.mp hmem with h4 | h4
            · exact hx h4
            · exact h2 h4

theorem mem_dedupNl (x : List Char) (ls : List (List Char)) :
    x ∈ dedupNl ls ↔ x ∈ ls := by
  unfold dedupNl
  rw [mem_dedupAux]
  simp

theorem mem_insertLenDesc (x y : List Char) :
    ∀ (ls : List (List Char)), x ∈ insertLenDesc y ls ↔ x = y ∨ x ∈ ls := by
  intro ls
  induction ls with
  | nil => simp [insertLenDesc]
  | cons z zs ih =>
    rw [insertLenDesc]
    by_cases h : z.length ≤ y.length
    · rw [if_pos h]
      simp [List.mem_cons]
    · rw [if_neg h]
      rw [List.mem_cons, ih, List.mem_cons]
      tauto

theorem mem_sortLenDesc (x : List Char) :
    ∀ (ls : List (List Char)), x ∈ sortLenDesc ls ↔ x ∈ ls := by
  intro ls
  induction ls with
  | nil => simp [sortLenDesc]
  | cons l rest ih =>
    unfold sortLenDesc at *
    rw [List.foldr_cons, mem_insertLenDesc, ih, List.mem_cons]

theorem chain'_insertLenDesc (x : List Char) :
    ∀ (ls : List (List Char)),
      List.Chain' (fun a b : List Char => b.length ≤ a.length) ls →
      List.Chain' (fun a b : List Char => b.length ≤ a.length)
        (insertLenDesc x ls) := by
  intro ls
  induction ls with
  | nil => intro _; simp [insertLenDesc]
  | cons y ys ih =>
    intro hch
    rw [insertLenDesc]
    by_cases h : y.length ≤ x.length
    · rw [if_pos h]
      rw [List.chain'_cons']
      refine ⟨?_, hch⟩
      intro z hz
      cases ys with
      | nil =>
        simp at hz
        subst hz
        exact h
      | cons b ys2 =>
        simp at hz
        subst hz
        exact h
    · rw [if_neg h]
      rw [List.chain'_cons']
      constructor
      · intro z hz
        cases ys with
        | nil =>
          rw [show insertLenDesc x [] = [x] from rfl] at hz
          simp at hz
          subst hz
          exact le_of_lt (not_le.mp h)
        | cons b ys2 =>
          rw [insertLenDesc] at hz
          by_cases hb : b.length ≤ x.length
          · rw [if_pos hb] at hz
            simp at hz
            subst hz
            exact le_of_lt (not_le.mp h)
          · rw [if_neg hb] at hz
            simp at hz
            subst hz
            exact (List.chain'_cons'.mp hch).1 b rfl
      · exact ih hch.tail

theorem chain'_sortLenDesc (ls : List (List Char)) :
    List.Chain' (fun a b : List Char => b.length ≤ a.length) (sortLenDesc ls) := by
  induction ls with
  | nil => simp [sortLenDesc]
  | cons l rest ih =>
    unfold sortLenDesc at *
    rw [List.foldr_cons]
    exact chain'_insertLenDesc l _ ih

theorem maxByLenFirst_spec (l : List String) (hne : l ≠ []) :
    maxByLenFirst l ∈ l ∧ ∀ t ∈ l, t.length ≤ (maxByLenFirst l).length := by
  have aux : ∀ (rest : List String) (acc : String),
      (rest.foldl (fun acc u => if acc.length < u.length then u else acc) acc = acc ∨
       rest.foldl (fun acc u => if acc.length < u.length then u else acc) acc ∈ rest) ∧
      acc.length ≤
        (rest.foldl (fun acc u => if acc.length < u.length then u else acc) acc).length ∧
      ∀ t ∈ rest, t.length ≤
        (rest.foldl (fun acc u => if acc.length < u.length then u else acc) acc).length := by
    intro rest
    induction rest with
    | nil => intro acc; exact ⟨Or.inl rfl, le_refl _, fun t ht => absurd ht (by simp)⟩
    | cons u rest2 ih =>
      intro acc
      rw [List.foldl_cons]
      by_cases h : acc.length < u.length
      · rw [if_pos h]
        obtain ⟨hmem, hle, hall⟩ := ih u
        refine ⟨?_, ?_, ?_⟩
        · rcases hmem with h1 | h1
          · refine Or.inr ?_
            rw [h1]
            exact List.mem_cons_self u rest2
          · exact Or.inr (List.mem_cons_of_mem u h1)
        · exact le_trans (le_of_lt h) hle
        · intro t ht
          rcases List.mem_cons.mp ht with h1 | h1
          · subst h1; exact hle
          · exact hall t h1
      · rw [if_neg h]
        obtain ⟨hmem, hle, hall⟩ := ih acc
        refine ⟨?_, hle, ?_⟩
        · rcases hmem with h1 | h1
          · exact Or.inl h1
          · exact Or.inr (List.mem_cons_of_mem u h1)
        · intro t ht
          rcases List.mem_cons.mp ht with h1 | h1
          · subst h1; exact le_trans (not_lt.mp h) hle
          · exact hall t h1
  cases l with
  | nil => exact absurd rfl hne
  | cons t rest =>
    obtain ⟨hmem, hle, hall⟩ := aux rest t
    rw [show maxByLenFirst (t :: rest) =
      rest.foldl (fun acc u => if acc.length < u.length then u else acc) t from rfl]
    refine ⟨?_, ?_⟩
    · rcases hmem with h1 | h1
      · rw [h1]
        exact List.mem_cons_self t rest
      · exact List.mem_cons_of_mem t h1
    · intro s hs
      rcases List.mem_cons.mp hs with h1 | h1
      · subst h1; exact hle
      · exact hall s h1

/-- C8: if no OCR configuration produced nonempty text the extractor
returns `""`; otherwise the output's lines are exactly the unique lines
of all kept results, sorted by length with the longest first, and in
particular every line of the longest (primary) result is present. -/
theorem C8_extract_text_from_image_spec (attempts : List (Option String)) :
    (keptResults attempts = [] → extract_text_from_image attempts = "") ∧
    (keptResults attempts ≠ [] →
      (∀ l, l ∈ splitNl (extract_text_from_image attempts).data ↔
        ∃ t ∈ keptResults attempts, l ∈ splitNl t.data) ∧
      List.Chain' (fun a b : List Char => b.length ≤ a.length)
        (splitNl (extract_text_from_image attempts).data) ∧
      maxByLenFirst (keptResults attempts) ∈ keptResults attempts ∧
      (∀ t ∈ keptResults attempts,
        t.length ≤ (maxByLenFirst (keptResults attempts)).length) ∧
      (∀ l ∈ splitNl (maxByLenFirst (keptResults attempts)).data,
        l ∈ splitNl (extract_text_from_image attempts).data)) := by
  constructor
  · intro h
    unfold extract_text_from_image
    rw [if_pos h]
  · intro hne
    have hmemL : ∀ l, l ∈ sortLenDesc (dedupNl
        ((keptResults attempts).flatMap (fun t => splitNl t.data))) ↔
        ∃ t ∈ keptResults attempts, l ∈ splitNl t.data := by
      intro l
      rw [mem_sortLenDesc, mem_dedupNl, List.mem_flatMap]
    have hLnl : ∀ l ∈ sortLenDesc (dedupNl
        ((keptResults attempts).flatMap (fun t => splitNl t.data))), '\n' ∉ l := by
      intro l hl
      obtain ⟨t, _, hlt⟩ := (hmemL l).mp hl
      exact mem_splitNl_no_nl t.data l hlt
    have hLne : sortLenDesc (dedupNl
        ((keptResults attempts).flatMap (fun t => splitNl t.data))) ≠ [] := by
      obtain ⟨t0, ht0⟩ := List.exists_mem_of_ne_nil _ hne
      obtain ⟨l0, hl0s⟩ := List.exists_mem_of_ne_nil _ (splitNl_ne_nil t0.data)
      have hl0 : l0 ∈ sortLenDesc (dedupNl
          ((keptResults attempts).flatMap (fun t => splitNl t.data))) := by
        rw [hmemL]
        exact ⟨t0, ht0, hl0s⟩
      exact List.ne_nil_of_mem hl0
    have hlines : splitNl (extract_text_from_image attempts).data =
        sortLenDesc (dedupNl
          ((keptResults attempts).flatMap (fun t => splitNl t.data))) := by
      unfold extract_text_from_image
      rw [if_neg hne]
      exact splitNl_joinNl _ hLne hLnl
    obtain ⟨hpmem, hpmax⟩ := maxByLenFirst_spec (keptResults attempts) hne
    refine ⟨?_, ?_, hpmem, hpmax, ?_⟩
    · intro l
      rw [hlines]
      exact hmemL l
    · rw [hlines]
      exact chain'_sortLenDesc _
    · intro l hl
      rw [hlines, hmemL]
      exact ⟨maxByLenFirst (keptResults attempts), hpmem, hl⟩

/-- C8 witness: a concrete four-configuration outcome — one failure, one
whitespace-only result — combines the two kept results' unique lines
longest-first; all-failing configurations yield the empty string. -/
theorem C8_witness :
    keptResults [some "linea corta\nuna linea bastante larga", none,
      some "   ", some "otra\nlinea corta"] ≠ [] ∧
    extract_text_from_image [some "linea corta\nuna linea bastante larga", none,
      some "   ", some "otra\nlinea corta"] =
      "una linea bastante larga\nlinea corta\notra" ∧
    extract_text_from_image [none, some "", some "   "] = "" ∧
    (∀ l ∈ splitNl (maxByLenFirst (keptResults
        [some "linea corta\nuna linea bastante larga", none,
         some "   ", some "otra\nlinea corta"])).data,
      l ∈ splitNl (extract_text_from_image
        [some "linea corta\nuna linea bastante larga", none,
         some "   ", some "otra\nlinea corta"]).data) :=
  ⟨by decide, by decide,
   (C8_extract_text_from_image_spec [none, some "", some "   "]).1 (by decide),
   ((C8_extract_text_from_image_spec
      [some "linea corta\nuna linea bastante larga", none,
       some "   ", some "otra\nlinea corta"]).2 (by decide)).2.2.2.2⟩

/-! ## `process_itau_unified_v1.py`: row assembly and batch loops

`process_pagare` / `process_credito_consumo` assemble the canonical
record from per-page extractions.  The leaf extractors (regex cascades,
fuzzy comuna matching, amount/date parsing, …) enter as an explicit
record of functions: the assembly logic — the per-page loop, the
completeness score, first-maximum page choice, identity-block priority,
fallback chains and the literal final-row dictionary — is translated
from the source and holds for *every* behaviour of those leaves. -/

/-- Python `a or b` on strings. -/
def orElseStr (a b : String) : String := if a ≠ "" then a else b

/-- First truthy value of a list (the `if not x: x = ...` accumulation
loops). -/
def firstNonEmpty (l : List String) : String :=
  (l.find? (fun s => s ≠ "")).getD ""

/-- The CC identity block (`extract_cc_identity_block` result). -/
structure IdentCC where
  name : String
  rut : String
  dv : String
  address : String
  comuna : String
  ok : Bool

/-- The leaf extraction helpers used by the row assemblers. -/
structure Extractors where
  extractProductoHint : String → String
  extractOperationFromText : String → String
  findAllRuts : String → List RutCand
  extractNombreGeneric : String → String
  extractDomicilioComunaPP : String → String × String
  parseSpanishDate : String → String
  extractAmountFmt : String → String
  extractFechaVenc1 : String → String
  extractFechaVencUltima : String → String
  extractCcIdentityBlock : List String → IdentCC
  extractRepresentantes : List String → String × String
  cleanAndFixAddress : String → String
  fixComunaOcr : String → String
  fixNToEne : String → String
  extractOperationFromFilename : String → String

/-- One per-page record of the PP loop. -/
structure PageRowPP where
  text : String
  operacion : String
  rut : String
  dv : String
  nombre : String
  direccion : String
  comuna : String
  fechaSus : String
  monto : String
  fv1 : String
  fvUlt : String

/-- One per-page record of the CC loop. -/
structure PageRowCC where
  text : String
  operacion : String
  rut : String
  dv : String
  nombreG : String
  fechaSus : String
  monto : String
  fv1 : String
  fvUlt : String

/-- `score_row_basic` (PP): 50/30/20/10 for a populated operation id,
RUT, name, amount. -/
def scoreRowPP (r : PageRowPP) : Nat :=
  (if r.operacion ≠ "" then 50 else 0) + (if r.rut ≠ "" then 30 else 0) +
    (if r.nombre ≠ "" then 20 else 0) + (if r.monto ≠ "" then 10 else 0)

/-- `score_row_basic` (CC). -/
def scoreRowCC (r : PageRowCC) : Nat :=
  (if r.operacion ≠ "" then 50 else 0) + (if r.rut ≠ "" then 30 else 0) +
    (if r.nombreG ≠ "" then 20 else 0) + (if r.monto ≠ "" then 10 else 0)

/-- Python `max(rows, key=score) if rows else {}`: first maximum. -/
def maxRowBy {α : Type} (score : α → Nat) : List α → Option α
  | [] => none
  | r :: rest =>
    some (rest.foldl (fun acc u => if score acc < score u then u else acc) r)

/-- A field of the best page, `best.get(field, "")`. -/
def bestGet {α : Type} (best : Option α) (f : α → String) : String :=
  (best.map f).getD ""

/-- The per-page extraction of `process_pagare`. -/
def mkPageRowPP (ext : Extractors) (text : String) : PageRowPP :=
  let ruts := ext.findAllRuts text
  let rd := if ruts ≠ [] then choose_rut_for_doc text ruts "PP" else ("", "")
  { text := text
    operacion := ext.extractOperationFromText text
    rut := rd.1
    dv := rd.2
    nombre := ext.extractNombreGeneric text
    direccion := (ext.extractDomicilioComunaPP text).1
    comuna := (ext.extractDomicilioComunaPP text).2
    fechaSus := ext.parseSpanishDate text
    monto := ext.extractAmountFmt text
    fv1 := ext.extractFechaVenc1 text
    fvUlt := ext.extractFechaVencUltima text }

/-- The per-page extraction of `process_credito_consumo`. -/
def mkPageRowCC (ext : Extractors) (text : String) : PageRowCC :=
  let ruts := ext.findAllRuts text
  let rd := if ruts ≠ [] then choose_rut_for_doc text ruts "CC" else ("", "")
  { text := text
    operacion := ext.extractOperationFromText text
    rut := rd.1
    dv := rd.2
    nombreG := ext.extractNombreGeneric text
    fechaSus := ext.parseSpanishDate text
    monto := ext.extractAmountFmt text
    fv1 := ext.extractFechaVenc1 text
    fvUlt := ext.extractFechaVencUltima text }

/-- `process_pagare(text_pages, source_name=...)`; the product hint is
captured but the output PRODUCTO is normalized to `"PP"` regardless. -/
def process_pagare (ext : Extractors) (text_pages : List String)
    (sourceName : String) : Row :=
  let rows := text_pages.map (mkPageRowPP ext)
  let operation := firstNonEmpty (text_pages.map ext.extractOperationFromText)
  let opFromFile := ext.extractOperationFromFilename sourceName
  let best := maxRowBy scoreRowPP rows
  let reps := ext.extractRepresentantes text_pages
  let direccion := ext.cleanAndFixAddress (bestGet best (fun r => r.direccion))
  let comuna := ext.fixComunaOcr (bestGet best (fun r => r.comuna))
  let nombreCorr := ext.fixNToEne (bestGet best (fun r => r.nombre))
  let direccionCorr := ext.fixNToEne direccion
  let comunaCorr := ext.fixNToEne comuna
  let fechaSusFinal := firstNonEmpty (rows.map (fun r => r.fechaSus))
  let fv1Final := firstNonEmpty (rows.map (fun r => r.fv1))
  let fvUltFinal := firstNonEmpty (rows.map (fun r => r.fvUlt))
  [("OPERACION_1",
     orElseStr (orElseStr operation (bestGet best (fun r => r.operacion))) opFromFile),
   ("RUT", bestGet best (fun r => r.rut)),
   ("DV", bestGet best (fun r => r.dv)),
   ("NOMBRE", nombreCorr),
   ("DIRECCION", direccionCorr),
   ("COMUNA", comunaCorr),
   ("FECHA_SUSCRIPCION_1", orElseStr fechaSusFinal (bestGet best (fun r => r.fechaSus))),
   ("MONTO_CREDITO_1", bestGet best (fun r => r.monto)),
   ("CUOTAS_1", ""), ("TASA_1", ""), ("MONTO_CUOTA_1", ""),
   ("MONTO_ULTIMA_CUOTA_1", ""),
   ("FECHA_VENCIMIENTO_1_CUOTA_1",
     orElseStr fv1Final (bestGet best (fun r => r.fechaSus))),
   ("FECHA_VENCIMIENTO_ULTIMA_CUOTA_1",
     orElseStr fvUltFinal (bestGet best (fun r => r.fechaSus))),
   ("CUOTA_MOROSA_1", ""), ("FECHA_CUOTA_MOROSA_1", ""),
   ("CAPITAL_1", bestGet best (fun r => r.monto)),
   ("EXHORTO", "TEMUCO"), ("SUCURSAL", "SANTIAGO"), ("PRODUCTO", "PP"),
   ("NOMBRE_APODERADO", ext.fixNToEne reps.1),
   ("NOMBRE_APODERADO_2", ext.fixNToEne reps.2)]

/-- `process_credito_consumo(text_pages, source_name=...)`: the identity
block takes priority over the best page's generic values. -/
def process_credito_consumo (ext : Extractors) (text_pages : List String)
    (sourceName : String) : Row :=
  let ident := ext.extractCcIdentityBlock text_pages
  let rows := text_pages.map (mkPageRowCC ext)
  let best := maxRowBy scoreRowCC rows
  let operation :=
    orElseStr (firstNonEmpty ((rows.map (fun r => r.text)).map
        ext.extractOperationFromText))
      (bestGet best (fun r => r.operacion))
  let opFromFile := ext.extractOperationFromFilename sourceName
  let nombre := orElseStr (orElseStr ident.name (bestGet best (fun r => r.nombreG))) ""
  let rut := orElseStr (orElseStr ident.rut (bestGet best (fun r => r.rut))) ""
  let dv := orElseStr (orElseStr ident.dv (bestGet best (fun r => r.dv))) ""
  let direccion := ext.cleanAndFixAddress (orElseStr ident.address "")
  let comuna := ext.fixComunaOcr (orElseStr ident.comuna "")
  let nombreCorr := ext.fixNToEne nombre
  let direccionCorr := ext.fixNToEne direccion
  let comunaCorr := ext.fixNToEne comuna
  let fv1Final := firstNonEmpty (rows.map (fun r => r.fv1))
  let fvUltFinal := firstNonEmpty (rows.map (fun r => r.fvUlt))
  let reps := ext.extractRepresentantes text_pages
  [("OPERACION_1", orElseStr operation opFromFile),
   ("RUT", rut), ("DV", dv), ("NOMBRE", nombreCorr),
   ("DIRECCION", direccionCorr), ("COMUNA", comunaCorr),
   ("FECHA_SUSCRIPCION_1", bestGet best (fun r => r.fechaSus)),
   ("MONTO_CREDITO_1", bestGet best (fun r => r.monto)),
   ("CUOTAS_1", ""), ("TASA_1", ""), ("MONTO_CUOTA_1", ""),
   ("MONTO_ULTIMA_CUOTA_1", ""),
   ("FECHA_VENCIMIENTO_1_CUOTA_1", fv1Final),
   ("FECHA_VENCIMIENTO_ULTIMA_CUOTA_1", fvUltFinal),
   ("CUOTA_MOROSA_1", ""), ("FECHA_CUOTA_MOROSA_1", ""),
   ("CAPITAL_1", bestGet best (fun r => r.monto)),
   ("EXHORTO", "TEMUCO"), ("SUCURSAL", "SANTIAGO"), ("PRODUCTO", "CC"),
   ("NOMBRE_APODERADO", ext.fixNToEne reps.1),
   ("NOMBRE_APODERADO_2", ext.fixNToEne reps.2)]

/-- `process_document_unified`: dispatch on the detected type. -/
def process_document_unified (ext : Extractors) (text_pages : List String)
    (docType sourceName : String) : Row :=
  if docType = "PP" then process_pagare ext text_pages sourceName
  else process_credito_consumo ext text_pages sourceName

/-- The unified output column set (`UNIFIED_COLUMNS`). -/
def UNIFIED_COLUMNS : List String :=
  ["OPERACION_1", "RUT", "DV", "NOMBRE", "DIRECCION", "COMUNA",
   "FECHA_SUSCRIPCION_1", "MONTO_CREDITO_1", "CUOTAS_1", "TASA_1",
   "MONTO_CUOTA_1", "MONTO_ULTIMA_CUOTA_1", "FECHA_VENCIMIENTO_1_CUOTA_1",
   "FECHA_VENCIMIENTO_ULTIMA_CUOTA_1", "CUOTA_MOROSA_1", "FECHA_CUOTA_MOROSA_1",
   "CAPITAL_1", "EXHORTO", "SUCURSAL", "PRODUCTO", "NOMBRE_APODERADO",
   "NOMBRE_APODERADO_2"]

/-! ## `ocr_to_csv.py`: empty-row fallback and the two batch loops -/

/-- Worker for Python `str.replace` (all occurrences, left to right);
the fuel starts at the string length. -/
def replGo (pat rep : List Char) : Nat → List Char → List Char
  | _, [] => []
  | 0, l => l
  | fuel + 1, c :: rest =>
    if pat.isPrefixOf (c :: rest) then
      rep ++ replGo pat rep fuel ((c :: rest).drop pat.length)
    else c :: replGo pat rep fuel rest

/-- Python `s.replace(pat, rep)`. -/
def pyReplace (s pat rep : String) : String :=
  ⟨replGo pat.data rep.data s.data.length s.data⟩

/-- The CSV header set of `ocr_to_csv.write_csv` (and the key set of
`create_csv_row` / `create_empty_row`). -/
def CSV_HEADERS : List String :=
  ["OPERACION", "RUT", "DV", "NOMBRE", "DIRECCION", "COMUNA",
   "FECHA_SUSCRIPCION", "MONTO_CREDITO", "CUOTAS", "TASA",
   "MONTO_CUOTA", "MONTO_ULTIMA_CUOTA",
   "FECHA_VENCIMIENTO_1_CUOTA", "FECHA_VENCIMIENTO_ULTIMA_CUOTA",
   "CUOTA_MOROSA", "FECHA_CUOTA_MOROSA",
   "CAPITAL", "PRODUCTO", "NOMBRE_APODERADO", "NOMBRE_APODERADO_2"]

/-- `OCRToCSV.create_empty_row`: the all-empty record for an
unprocessable PDF, with the filename-derived operation id. -/
def create_empty_row (pdfName : String) : Row :=
  [("OPERACION", pyReplace pdfName ".pdf" ""),
   ("RUT", ""), ("DV", ""), ("NOMBRE", ""), ("DIRECCION", ""), ("COMUNA", ""),
   ("FECHA_SUSCRIPCION", ""), ("MONTO_CREDITO", ""), ("CUOTAS", ""),
   ("TASA", ""), ("MONTO_CUOTA", ""), ("MONTO_ULTIMA_CUOTA", ""),
   ("FECHA_VENCIMIENTO_1_CUOTA", ""), ("FECHA_VENCIMIENTO_ULTIMA_CUOTA", ""),
   ("CUOTA_MOROSA", ""), ("FECHA_CUOTA_MOROSA", ""),
   ("CAPITAL", ""), ("PRODUCTO", "CREDITO CONSUMO"),
   ("NOMBRE_APODERADO", "YASNA DEL CARMEN OLAVE MARTINEZ"),
   ("NOMBRE_APODERADO_2", "ERWIN ORLANDO ALIAGA MARILLAN")]

/-- One input PDF of a batch, with the outcome of its external
processing: `.error ()` models an exception raised while handling the
document, `.ok pages` the OCR'd page texts (`.ok []` = rasterization
produced no images). -/
structure PdfInput where
  name : String
  raster : Except Unit (List String)

/-- `OCRToCSV.process_pdf`: an empty rasterization yields
`create_empty_row`; otherwise the downstream field extraction
(parameter `mkRow`) builds the row. -/
def processPdfModel (mkRow : String → List String → Row)
    (name : String) (pages : List String) : Row :=
  if pages = [] then create_empty_row name else mkRow name pages

/-- `OCRToCSV.process_all_pdfs`: every input PDF contributes exactly one
row — a per-document exception is caught and replaced by
`create_empty_row`. -/
def process_all_pdfs (mkRow : String → List String → Row)
    (pdfs : List PdfInput) : List Row :=
  pdfs.map (fun p =>
    match p.raster with
    | .ok pages => processPdfModel mkRow p.name pages
    | .error _ => create_empty_row p.name)

/-- The batch loop of `process_itau_unified_v1.main` (and
`process_pdf_files`): a document whose rasterization produced no images
is skipped (`continue`), and a document whose processing raised is
skipped as well — no row is appended for it. -/
def unifiedBatch (ext : Extractors) (pdfs : List PdfInput) : List Row :=
  pdfs.foldl (fun acc p =>
    match p.raster with
    | .error _ => acc
    | .ok pages =>
      if pages = [] then acc
      else acc ++ [process_document_unified ext pages
        (detect_document_type pages) p.name]) []

/-- C2: every canonical record produced by the row assemblers — the PP
path, the CC path, and the empty-row fallback — carries exactly the full
canonical key set, in order, with (by construction) a string value for
each key, for every behaviour of the leaf extractors and every input,
including a zero-page document. -/
theorem C2_canonical_record_keys (ext : Extractors) (pages : List String)
    (name : String) :
    List.map Prod.fst (process_pagare ext pages name) = UNIFIED_COLUMNS ∧
    List.map Prod.fst (process_credito_consumo ext pages name) = UNIFIED_COLUMNS ∧
    List.map Prod.fst (create_empty_row name) = CSV_HEADERS :=
  ⟨rfl, rfl, rfl⟩

/-- C1 (amended): the `ocr_to_csv` batch orchestrator emits exactly one
row per input PDF, and any document whose processing raised or whose
rasterization produced no images gets `create_empty_row` (empty fields,
filename-derived operation id). -/
theorem C1_ocr_batch_no_silent_drop (mkRow : String → List String → Row)
    (pdfs : List PdfInput) :
    (process_all_pdfs mkRow pdfs).length = pdfs.length ∧
    (∀ (i : Nat) (h : i < pdfs.length)
        (h2 : i < (process_all_pdfs mkRow pdfs).length),
      ((pdfs.get ⟨i, h⟩).raster = Except.error () ∨
        (pdfs.get ⟨i, h⟩).raster = Except.ok ([] : List String)) →
      (process_all_pdfs mkRow pdfs).get ⟨i, h2⟩ =
        create_empty_row (pdfs.get ⟨i, h⟩).name) := by
  constructor
  · unfold process_all_pdfs
    exact List.length_map _ _
  · intro i h h2 hfail
    have hget : (process_all_pdfs mkRow pdfs).get ⟨i, h2⟩ =
        (match (pdfs.get ⟨i, h⟩).raster with
         | .ok pages => processPdfModel mkRow (pdfs.get ⟨i, h⟩).name pages
         | .error _ => create_empty_row (pdfs.get ⟨i, h⟩).name) := by
      unfold process_all_pdfs at h2 ⊢
      rw [List.get_map]
    rw [hget]
    rcases hfail with hf | hf
    · rw [hf]
    · rw [hf]
      show processPdfModel mkRow (pdfs.get ⟨i, h⟩).name [] = _
      unfold processPdfModel
      rw [if_pos rfl]

/-- Batch inputs of the C1 witness: one good document, one whose
rasterization yields no images, one whose processing raises. -/
def c1Pdfs : List PdfInput :=
  [⟨"doc1.pdf", Except.ok ["texto"]⟩, ⟨"doc2.pdf", Except.ok []⟩,
   ⟨"doc3.pdf", Except.error ()⟩]

/-- C1 witness: the `ocr_to_csv` batch of three PDFs (one rasterization
failure, one exception) still has three rows, and each failed document's
row is the empty row with the filename-derived operation id. -/
theorem C1_witness :
    (process_all_pdfs (fun _ _ => ([] : Row)) c1Pdfs).length = 3 ∧
    (process_all_pdfs (fun _ _ => ([] : Row)) c1Pdfs).get ⟨1, by decide⟩ =
      create_empty_row "doc2.pdf" ∧
    (process_all_pdfs (fun _ _ => ([] : Row)) c1Pdfs).get ⟨2, by decide⟩ =
      create_empty_row "doc3.pdf" ∧
    rowGet (create_empty_row "doc2.pdf") "OPERACION" = "doc2" ∧
    rowGet (create_empty_row "doc2.pdf") "RUT" = "" := by
  have h := C1_ocr_batch_no_silent_drop (fun _ _ => ([] : Row)) c1Pdfs
  refine ⟨by rw [h.1]; decide, ?_, ?_, by decide, by decide⟩
  · exact h.2 1 (by decide) (by decide) (Or.inr rfl)
  · exact h.2 2 (by decide) (by decide) (Or.inl rfl)

/-- The trivial leaf-extractor instantiation used by the unified-batch
counterexample (the dropped-row count does not depend on the leaves). -/
def trivialExt : Extractors where
  extractProductoHint := fun _ => ""
  extractOperationFromText := fun _ => ""
  findAllRuts := fun _ => []
  extractNombreGeneric := fun _ => ""
  extractDomicilioComunaPP := fun _ => ("", "")
  parseSpanishDate := fun _ => ""
  extractAmountFmt := fun _ => ""
  extractFechaVenc1 := fun _ => ""
  extractFechaVencUltima := fun _ => ""
  extractCcIdentityBlock := fun _ => ⟨"", "", "", "", "", false⟩
  extractRepresentantes := fun _ => ("", "")
  cleanAndFixAddress := fun s => s
  fixComunaOcr := fun s => s
  fixNToEne := fun s => s
  extractOperationFromFilename := fun _ => ""

/-- C1 counterexample: the unified Itaú orchestrator `main` skips a
document whose rasterization produced no images (`continue`), so a batch
of 3 PDFs with one such failure yields only 2 output rows — the claim's
"exactly 3 rows" fails on this cited orchestrator. -/
theorem C1_counterexample :
    ([⟨"a.pdf", Except.ok ["texto de pagina"]⟩,
      ⟨"b.pdf", Except.ok []⟩,
      ⟨"c.pdf", Except.ok ["texto de pagina"]⟩] : List PdfInput).length = 3 ∧
    (unifiedBatch trivialExt
      [⟨"a.pdf", Except.ok ["texto de pagina"]⟩,
       ⟨"b.pdf", Except.ok []⟩,
       ⟨"c.pdf", Except.ok ["texto de pagina"]⟩]).length = 2 ∧
    (2 : Nat) ≠ 3 := by
  refine ⟨by decide, by decide, by decide⟩

end OCRAuto
